import Mathlib

/-!
Verification of the remote-skills extension core: source-reference parsing,
tar extraction, skill detection, and lock-record reconciliation.

Strings are modelled as lists of characters (`Str`); byte buffers as lists of
naturals.  Each definition is a direct shallow embedding of the corresponding
JavaScript function, with JS semantics (truthiness, `indexOf`, `split`,
`parseInt`, `subarray` index clamping) spelled out explicitly.
-/

set_option maxRecDepth 10000

/-- Character-list model of a JavaScript string. -/
abbrev Str := List Char

/-- Embed a Lean string literal into the `Str` model. -/
def strOf (s : String) : Str := s.toList

/-- JS `String.prototype.indexOf` for a single character: index of the first
occurrence, `none` when absent. -/
def jsIndexOf (c : Char) : Str → Option Nat
  | [] => none
  | x :: xs => if x = c then some 0 else (jsIndexOf c xs).map (· + 1)

/-- JS `String.prototype.split` on a single-character separator: splits at
every occurrence, keeping empty pieces (`"a//b".split("/") = ["a","","b"]`). -/
def jsSplit (sep : Char) : Str → List Str
  | [] => [[]]
  | x :: xs =>
    if x = sep then [] :: jsSplit sep xs
    else
      match jsSplit sep xs with
      | y :: ys => (x :: y) :: ys
      | [] => [[x]]

/-- JS `Array.prototype.join` with a single-character separator. -/
def jsJoin (sep : Char) : List Str → Str
  | [] => []
  | [x] => x
  | x :: xs => x ++ sep :: jsJoin sep xs

/-- JS `startsWith`. -/
def jsStartsWith (pre s : Str) : Bool := pre.isPrefixOf s

/-- JS `endsWith` for a single character. -/
def strEndsWithChar (s : Str) (c : Char) : Bool :=
  match s.getLast? with
  | some x => x = c
  | none => false

/-- The scheme marker of the internal shorthand format. -/
def githubScheme : Str := strOf "github:"

/-- `https://github.com/` URL marker. -/
def httpsGithubPre : Str := strOf "https://github.com/"

/-- `http://github.com/` URL marker. -/
def httpGithubPre : Str := strOf "http://github.com/"

/-- A parsed remote source reference
(`{ host: 'github', owner, repo, skillPath?, ref }` in the source). -/
structure RemoteSource where
  host : Str
  owner : Str
  repo : Str
  skillPath : Option Str
  ref : Str
deriving DecidableEq, Repr

/-- The two `throw new Error(...)` sites of `parseRemoteSource`. -/
inductive SourceError where
  /-- "Unsupported source format" (not `github:` and not a GitHub URL). -/
  | unsupportedFormat
  /-- "Invalid GitHub source" (fewer than two `/`-separated body segments). -/
  | invalidGitHubSource
deriving DecidableEq, Repr

/-- Strip every trailing `/` (the JS replace of the trailing-slash run). -/
def dropTrailingSlashes (s : Str) : Str :=
  (s.reverse.dropWhile (· = '/')).reverse

/-- Strip one trailing `.git` suffix (JS `replace(/\.git$/, '')`). -/
def dropDotGit (s : Str) : Str :=
  if (strOf "tig.").isPrefixOf s.reverse then s.reverse.drop 4 |>.reverse else s

/-- Match `^https?:\/\/github\.com\/(.+)$`: returns the non-empty remainder
after the host marker, `none` when the regex does not match. -/
def httpRest (s : Str) : Option Str :=
  if httpsGithubPre.isPrefixOf s then
    let rest := s.drop httpsGithubPre.length
    if rest = [] then none else some rest
  else if httpGithubPre.isPrefixOf s then
    let rest := s.drop httpGithubPre.length
    if rest = [] then none else some rest
  else none

/-- Embedding of `normalizeGitHubUrl`: convert a GitHub web URL to the
internal `github:` shorthand, returning the input unchanged when the URL does
not have the expected shape. -/
def normalizeGitHubUrl (url : Str) : Str :=
  let cleaned := dropDotGit (dropTrailingSlashes url)
  match httpRest cleaned with
  | none => url
  | some rest =>
    let segments := jsSplit '/' rest
    if segments.length < 2 then url
    else
      let owner := segments.headD []
      let repo := (segments.drop 1).headD []
      if 4 ≤ segments.length ∧ (segments.drop 2).headD [] = strOf "tree" then
        let ref := (segments.drop 3).headD []
        let skillPath := if 4 < segments.length then jsJoin '/' (segments.drop 4) else []
        githubScheme ++ owner ++ '/' :: repo ++
          (if skillPath ≠ [] then '/' :: skillPath else []) ++ '#' :: ref
      else
        githubScheme ++ owner ++ '/' :: repo

/-- Embedding of `parseRemoteSource`: normalize GitHub URLs, require the
`github:` scheme, split the body from an optional ref at the **first** `#`
(`body.indexOf('#')`), split the body on `/`, and require at least two
segments.  `skillPath` is the `/`-join of the remaining segments when more
than two are present (otherwise JS `undefined`, modelled as `none`). -/
def parseRemoteSource (uri0 : Str) : Except SourceError RemoteSource :=
  let uri :=
    if httpsGithubPre.isPrefixOf uri0 ∨ httpGithubPre.isPrefixOf uri0 then
      normalizeGitHubUrl uri0
    else uri0
  if githubScheme.isPrefixOf uri then
    let body0 := uri.drop githubScheme.length
    let hsplit : Str × Str :=
      match jsIndexOf '#' body0 with
      | some i => (body0.take i, body0.drop (i + 1))
      | none => (body0, [])
    let body := hsplit.1
    let ref := hsplit.2
    let parts := jsSplit '/' body
    if parts.length < 2 then .error .invalidGitHubSource
    else
      .ok { host := strOf "github"
            owner := parts.headD []
            repo := (parts.drop 1).headD []
            skillPath := if 2 < parts.length then some (jsJoin '/' (parts.drop 2)) else none
            ref := ref }
  else .error .unsupportedFormat

/-- Embedding of `formatSourceUri`: rebuild the shorthand, appending the
skill path only when truthy (non-empty) and the ref only when truthy and
different from `"main"`. -/
def formatSourceUri (source : RemoteSource) : Str :=
  let uri := githubScheme ++ source.owner ++ '/' :: source.repo
  let uri :=
    match source.skillPath with
    | some p => if p ≠ [] then uri ++ '/' :: p else uri
    | none => uri
  if source.ref ≠ [] ∧ source.ref ≠ strOf "main" then uri ++ '#' :: source.ref else uri

/-- Path component of a shorthand uri (`/path` when present). -/
def optPathPart : Option Str → Str
  | some q => '/' :: q
  | none => []

/-- Ref component of a shorthand uri (`#ref` when present). -/
def optRefPart : Option Str → Str
  | some s => '#' :: s
  | none => []

/-- The shorthand grammar `github:owner/repo[/path][#ref]` assembled from its
components. -/
def shorthandUri (owner repo : Str) (p r : Option Str) : Str :=
  githubScheme ++ owner ++ '/' :: repo ++ optPathPart p ++ optRefPart r

/-- The body of a `github:` uri before the first `#` (the part
`parseRemoteSource` reads owner/repo/skillPath from). -/
def hashBody (u : Str) : Str :=
  let body0 := u.drop githubScheme.length
  match jsIndexOf '#' body0 with
  | some i => body0.take i
  | none => body0

/-! ### Tar extraction (`extractTar`) -/

/-- A filesystem effect performed by the tar extractor. -/
inductive FsAction where
  /-- `fs.mkdirSync(p, recursive)` -/
  | mkdir (p : Str)
  /-- `fs.writeFileSync(p, data)` -/
  | writeFile (p : Str) (data : List Nat)
deriving DecidableEq, Repr

/-- `path.join(a, b)` for an already-normalized relative name `b`. -/
def pathJoin (a b : Str) : Str := a ++ '/' :: b

/-- `path.dirname`: everything before the last `/` of the path. -/
def pathDirname (p : Str) : Str :=
  match jsIndexOf '/' p.reverse with
  | some i => (p.reverse.drop (i + 1)).reverse
  | none => p

/-- JS `TypedArray.prototype.subarray` index semantics on a byte list:
negative indices count from the end, indices are clamped to the length, and
an end before the start yields the empty buffer. -/
def jsSubarray (l : List Nat) (s e : Int) : List Nat :=
  let n : Int := l.length
  let s' := (if s < 0 then max (n + s) 0 else min s n).toNat
  let e' := (if e < 0 then max (n + e) 0 else min e n).toNat
  (l.drop s').take (e' - s')

/-- Decode a byte list to text.  Bytes are mapped directly to code points,
which agrees with the JS utf-8 decoding on the ASCII data the extractor
actually inspects (names, octal size fields, pax records). -/
def bytesToStr (l : List Nat) : Str := l.map Char.ofNat

/-- Encode text to bytes (`Buffer` of an ASCII string). -/
def strBytes (s : Str) : List Nat := s.map Char.toNat

/-- Strip trailing NUL characters (the JS replace of the trailing-NUL run). -/
def stripTrailingNuls (s : Str) : Str :=
  (s.reverse.dropWhile (fun c => c.toNat = 0)).reverse

/-- JS whitespace for `String.prototype.trim`. -/
def isJsSpace (c : Char) : Bool :=
  c = ' ' ∨ c = '\t' ∨ c = '\n' ∨ c = '\r' ∨ c.toNat = 11 ∨ c.toNat = 12

/-- JS `String.prototype.trim`. -/
def jsTrim (s : Str) : Str :=
  ((s.dropWhile isJsSpace).reverse.dropWhile isJsSpace).reverse

/-- Octal digit test. -/
def isOctDigit (c : Char) : Bool := '0' ≤ c ∧ c ≤ '7'

/-- Value of the longest leading run of octal digits; `none` when there is no
leading digit (JS `parseInt` returns NaN there). -/
def octRunVal (s : Str) : Option Nat :=
  let run := s.takeWhile isOctDigit
  if run = [] then none
  else some (run.foldl (fun acc c => acc * 8 + (c.toNat - '0'.toNat)) 0)

/-- JS `parseInt(s, 8)` on an already-trimmed string: optional sign, then the
longest run of octal digits; NaN (`none`) when no digit follows. -/
def jsParseIntOctal (s : Str) : Option Int :=
  match s with
  | '-' :: rest => (octRunVal rest).map (fun n => -(n : Int))
  | '+' :: rest => (octRunVal rest).map (fun n => (n : Int))
  | _ => (octRunVal s).map (fun n => (n : Int))

/-- Octal rendering of a natural number (used to build test headers). -/
def octEncode (n : Nat) : Str :=
  if _h : n < 8 then [Nat.digitChar n]
  else octEncode (n / 8) ++ [Nat.digitChar (n % 8)]
decreasing_by exact Nat.div_lt_self (by omega) (by omega)

/-- Try the pax regex body `[0-9]+ path=([^\n]+)` at the current position. -/
def paxLineMatch (s : Str) : Option Str :=
  let digits := s.takeWhile Char.isDigit
  if digits = [] then none
  else
    match s.drop digits.length with
    | ' ' :: rest =>
      if (strOf "path=").isPrefixOf rest then
        let cap := (rest.drop 5).takeWhile (· ≠ '\n')
        if cap = [] then none else some cap
      else none
    | _ => none

/-- Continue the pax scan at each position following a newline. -/
def paxScanTail : Str → Option Str
  | [] => none
  | c :: rest =>
    if c = '\n' then
      match paxLineMatch rest with
      | some v => some v
      | none => paxScanTail rest
    else paxScanTail rest

/-- First (leftmost) match of the JS regex used on pax data: a line starting
at the beginning of the text or after a newline, of the form
`[0-9]+ path=([^\n]+)`; returns the captured value. -/
def paxFindPath (s : Str) : Option Str :=
  match paxLineMatch s with
  | some v => some v
  | none => paxScanTail s

/-- Data-block padding: `Math.ceil(size / 512) * 512` over JS numbers,
including the negative sizes `parseInt` can produce. -/
def pad512 (n : Int) : Int := ((n + 511).fdiv 512) * 512

/-- The body of one `extractTar` loop iteration (the JS `while` body).
The continuation `k` receives the next offset, the pending pax path and the
accumulated actions; the `none` arm of the size parse models the NaN
propagation: every subsequent offset is NaN, the data subarray is empty, and
the loop condition fails on the next test, so the loop returns right after
this entry. -/
def extractTarBody (destDir : Str) (tar : List Nat) (offset : Int) (paxPath : Str)
    (acc : List FsAction)
    (k : Int → Str → List FsAction → Option (List FsAction)) :
    Option (List FsAction) :=
  if offset + 512 ≤ (tar.length : Int) then
    let header := jsSubarray tar offset (offset + 512)
    if header.all (fun b => b = 0) then some acc.reverse
    else
      let rawName := stripTrailingNuls (bytesToStr (jsSubarray header 0 100))
      let sizeStr := jsTrim (stripTrailingNuls (bytesToStr (jsSubarray header 124 136)))
      let typeFlag := Char.ofNat (header.getD 156 0)
      let hdrPre := stripTrailingNuls (bytesToStr (jsSubarray header 345 500))
      let fileSize : Option Int := if sizeStr = [] then some 0 else jsParseIntOctal sizeStr
      let entryName :=
        if paxPath ≠ [] then paxPath
        else if hdrPre ≠ [] then hdrPre ++ '/' :: rawName
        else rawName
      let offset := offset + 512
      match fileSize with
      | some size =>
        if typeFlag = 'x' ∨ typeFlag = 'g' then
          let paxData := bytesToStr (jsSubarray tar offset (offset + size))
          let paxPath' := (paxFindPath paxData).getD []
          k (offset + pad512 size) paxPath' acc
        else if typeFlag = '5' ∨ strEndsWithChar entryName '/' then
          let acc := .mkdir (pathJoin destDir entryName) :: acc
          k (offset + pad512 size) [] acc
        else if typeFlag = '0' ∨ typeFlag = Char.ofNat 0 then
          let filePath := pathJoin destDir entryName
          let data := jsSubarray tar offset (offset + size)
          let acc := .writeFile filePath data :: .mkdir (pathDirname filePath) :: acc
          k (offset + pad512 size) [] acc
        else
          k (offset + pad512 size) [] acc
      | none =>
        if typeFlag = 'x' ∨ typeFlag = 'g' then some acc.reverse
        else if typeFlag = '5' ∨ strEndsWithChar entryName '/' then
          some (List.reverse (.mkdir (pathJoin destDir entryName) :: acc))
        else if typeFlag = '0' ∨ typeFlag = Char.ofNat 0 then
          let filePath := pathJoin destDir entryName
          some (List.reverse
            (.writeFile filePath [] :: .mkdir (pathDirname filePath) :: acc))
        else some acc.reverse
  else some acc.reverse

/-- The `extractTar` header loop, driven by explicit fuel (the JS `while`
loop has no a-priori bound; a negative parsed size can keep the offset from
advancing, so the loop may never exit).  Returns the reversed action list on
normal exit and `none` when the fuel runs out, i.e. when the JS loop is
still running after that many iterations. -/
def extractTarLoop (destDir : Str) (tar : List Nat) :
    Nat → Int → Str → List FsAction → Option (List FsAction)
  | 0, _, _, _ => none
  | fuel + 1, offset, paxPath, acc =>
    extractTarBody destDir tar offset paxPath acc (extractTarLoop destDir tar fuel)

/-- Embedding of `extractTar`: run the header loop from offset 0 with no
pending pax path.  The fuel `tar.length + 1` dominates the iteration count of
every terminating run (each terminating iteration advances the offset by at
least 512); a `none` result means the JS loop never exits. -/
def extractTar (tar : List Nat) (destDir : Str) : Option (List FsAction) :=
  extractTarLoop destDir tar (tar.length + 1) 0 [] []

/-- Pad a byte list with NULs up to `n` bytes (header field layout). -/
def padTo (n : Nat) (l : List Nat) : List Nat :=
  l ++ List.replicate (n - l.length) 0

/-- Build a 512-byte ustar header block: 100-byte name, zeroed
mode/uid/gid, 12-byte size field, zeroed mtime/checksum, one type-flag byte,
zeroed remainder (link name, magic, ustar name fields). -/
def mkTarHeader (name sizeField : Str) (typeFlag : Char) : List Nat :=
  padTo 100 (strBytes name) ++ List.replicate 24 0 ++ padTo 12 (strBytes sizeField) ++
    List.replicate 20 0 ++ [typeFlag.toNat] ++ List.replicate 355 0

/-- Pad a data block with NULs up to the next 512-byte boundary. -/
def padBlock (l : List Nat) : List Nat :=
  l ++ List.replicate ((pad512 l.length).toNat - l.length) 0

/-- A pax extended-header entry (type `x`) whose data carries
`1 path=<v>`, followed by its padded data block. -/
def mkPaxEntry (v : Str) : List Nat :=
  mkTarHeader (strOf "pax") (octEncode (7 + v.length)) 'x' ++
    padBlock (strBytes (strOf "1 path=") ++ strBytes v)

/-! ### Skill detection (`detectSkills`) -/

/-- A model filesystem tree: files with text content, directories with named
children. -/
inductive FsTree where
  | file (content : Str)
  | dir (children : List (Str × FsTree))

/-- Look up a node by its path (a list of `/`-separated segments). -/
def fsLookup (t : FsTree) : List Str → Option FsTree
  | [] => some t
  | seg :: rest =>
    match t with
    | .file _ => none
    | .dir children =>
      match children.find? (fun p => p.1 = seg) with
      | some p => fsLookup p.2 rest
      | none => none

/-- `fileExists` (`fs.promises.access`): true when any node lives at the
path. -/
def fileExists (t : FsTree) (p : List Str) : Bool :=
  (fsLookup t p).isSome

/-- `readTextFile`: the content when the path names a file, else `null`. -/
def readTextFile (t : FsTree) (p : List Str) : Option Str :=
  match fsLookup t p with
  | some (.file c) => some c
  | _ => none

/-- `listDirectories`: names of the immediate child directories, `[]` when
the path is not a directory. -/
def listDirectories (t : FsTree) (p : List Str) : List Str :=
  match fsLookup t p with
  | some (.dir children) =>
    (children.filter (fun q => match q.2 with | .dir _ => true | .file _ => false)).map (·.1)
  | _ => []

/-- Front-matter fields extracted from a SKILL.md. -/
structure Frontmatter where
  name : Str
  description : Str
deriving DecidableEq, Repr

/-- Key-value line lookup for the multiline regexes `^name:\s*(.+)$` and
`^description:\s*(.+)$`: at each line start where the key matches, skip
whitespace (which may span line breaks) and capture the non-empty remainder
of that line; the first position with a non-empty capture wins. -/
def findKeyLine (key : Str) (s : Str) : Option Str :=
  let tryAt : Str → Option Str := fun rest =>
    if key.isPrefixOf rest then
      let afterWs := (rest.drop key.length).dropWhile isJsSpace
      let cap := afterWs.takeWhile (· ≠ '\n')
      if cap = [] then none else some cap
    else none
  let rec go : Str → Option Str
    | [] => none
    | c :: rest =>
      if c = '\n' then
        match tryAt rest with
        | some v => some v
        | none => go rest
      else go rest
  match tryAt s with
  | some v => some v
  | none => go s

/-- Regex body of the front-matter delimiter: content starting with `---`,
a whitespace run whose final character is a newline, then the lazily-matched
block up to the first `\n---`.  The delimiter search backtracks over which
newline of the whitespace run ends the opening line. -/
def fmSearchAt (s : Str) : Nat → Option Str
  | 0 => none
  | k + 1 =>
    let k' := k
    if (s.takeWhile isJsSpace).length < k' + 1 then fmSearchAt s k
    else if s.getD k' ' ' = '\n' then
      let afterOpen := s.drop (k' + 1)
      match List.findIdx? (fun i => (strOf "---").isPrefixOf ((afterOpen.drop i).drop 1) ∧
          afterOpen.getD i ' ' = '\n') (List.range (afterOpen.length)) with
      | some i => some (afterOpen.take i)
      | none => fmSearchAt s k
    else fmSearchAt s k

/-- Embedding of `parseFrontmatter`: the opening-delimiter regex with lazy
block capture, then the `name:`/`description:` line extraction, with the
description truncated to 100 characters. -/
def parseFrontmatter (content : Str) : Frontmatter :=
  if (strOf "---").isPrefixOf content then
    let afterDashes := content.drop 3
    match fmSearchAt afterDashes ((afterDashes.takeWhile isJsSpace).length) with
    | some fm =>
      { name := ((findKeyLine (strOf "name:") fm).map jsTrim).getD []
        description := (((findKeyLine (strOf "description:") fm).map jsTrim).getD []).take 100 }
    | none => { name := [], description := [] }
  else { name := [], description := [] }

/-- A detected skill (`DetectedSkill` in the source); `dirPath` is the
absolute path as segments, `relativePath` the `/`-joined relative path. -/
structure DetectedSkill where
  name : Str
  description : Str
  dirPath : List Str
  relativePath : Str
deriving DecidableEq, Repr

/-- "No skills found" error of `detectSkills`. -/
inductive DetectError where
  | noSkillsFound
deriving DecidableEq, Repr

/-- Embedding of `scanForSkills`: every immediate child directory (skipping
names starting with `.` or `_` and `node_modules`) that contains a SKILL.md
becomes one skill; name falls back to the directory name. -/
def scanForSkills (fs : FsTree) (parentDir : List Str) (relPre : Str) : List DetectedSkill :=
  (listDirectories fs parentDir).filterMap (fun d =>
    if (match d with | c :: _ => c == '.' || c == '_' | [] => false) || d == strOf "node_modules" then
      none
    else if fileExists fs (parentDir ++ [d, strOf "SKILL.md"]) then
      let content := (readTextFile fs (parentDir ++ [d, strOf "SKILL.md"])).getD []
      let fm := parseFrontmatter content
      some { name := if fm.name ≠ [] then fm.name else d
             description := fm.description
             dirPath := parentDir ++ [d]
             relativePath := if relPre ≠ [] then relPre ++ '/' :: d else d }
    else none)

/-- Embedding of `detectSkills`: pattern 1 (root SKILL.md ⇒ single
whole-repository skill), else pattern 2 (children of `skills/`), else
pattern 3 (children of the root), else the no-skills error. -/
def detectSkills (fs : FsTree) (repoDir : List Str) : Except DetectError (List DetectedSkill) :=
  if fileExists fs (repoDir ++ [strOf "SKILL.md"]) then
    let content := (readTextFile fs (repoDir ++ [strOf "SKILL.md"])).getD []
    let fm := parseFrontmatter content
    let dirName := (repoDir.getLast?).getD []
    .ok [{ name := if fm.name ≠ [] then fm.name else dirName
           description := fm.description
           dirPath := repoDir
           relativePath := [] }]
  else
    let fromSkillsDir :=
      if fileExists fs (repoDir ++ [strOf "skills"]) then
        scanForSkills fs (repoDir ++ [strOf "skills"]) (strOf "skills")
      else []
    if fromSkillsDir ≠ [] then .ok fromSkillsDir
    else
      let rootSkills := scanForSkills fs repoDir []
      if rootSkills ≠ [] then .ok rootSkills
      else .error .noSkillsFound

/-! ### Lock record (`lock.js`) and the sync lock transformation -/

/-- A JSON value (numbers as integers suffice for the lock format). -/
inductive Json where
  | null
  | bool (b : Bool)
  | num (n : Int)
  | str (s : Str)
  | arr (l : List Json)
  | obj (fields : List (Str × Json))

/-- JS truthiness of a JSON value. -/
def Json.truthy : Json → Bool
  | .null => false
  | .bool b => b
  | .num n => n ≠ 0
  | .str s => s ≠ []
  | .arr _ => true
  | .obj _ => true

/-- JS `typeof x === 'object'` on a JSON value (`null` and arrays
included). -/
def Json.isObjectType : Json → Bool
  | .null => true
  | .arr _ => true
  | .obj _ => true
  | _ => false

/-- Property access `j[k]`: `none` models JS `undefined`. -/
def Json.getField (j : Json) (k : Str) : Option Json :=
  match j with
  | .obj fields =>
    match fields.find? (fun p => p.1 = k) with
    | some p => some p.2
    | none => none
  | _ => none

/-- Truthiness of a possibly-undefined value. -/
def optTruthy (o : Option Json) : Bool :=
  match o with
  | some j => j.truthy
  | none => false

/-- JS `a ?? b`: `b` when `a` is `undefined` or `null`. -/
def jsNullish (o : Option Json) (d : Json) : Json :=
  match o with
  | some .null => d
  | some j => j
  | none => d

/-- The raw object shape `loadLock` returns (fields as parsed JSON; the code
copies them through without validation). -/
structure LockJs where
  version : Json
  skills : Json
  agents : Json

/-- Embedding of `createEmptyLock`. -/
def createEmptyLock : LockJs :=
  { version := .num 1, skills := .obj [], agents := .obj [] }

/-- Embedding of `loadLock`, as a function of the outcome of reading and
JSON-parsing the lock file: `none` means the read or the parse threw (file
missing or invalid JSON), `some j` the parsed value.  The catch block turns
every failure into the empty lock. -/
def loadLock (parsed : Option Json) : LockJs :=
  match parsed with
  | some j =>
    if j.truthy && j.isObjectType && optTruthy (j.getField (strOf "version")) then
      { version := jsNullish (j.getField (strOf "version")) .null
        skills := jsNullish (j.getField (strOf "skills")) (.obj [])
        agents := jsNullish (j.getField (strOf "agents")) (.obj []) }
    else createEmptyLock
  | none => createEmptyLock

/-- One `skills` entry of the lock file. -/
structure SkillEntry where
  source : Str
  sourceType : Str
  ref : Str
  path : Str
  installedAt : Str
deriving DecidableEq, Repr

/-- The typed lock record (the documented schema): insertion-ordered maps
modelled as association lists, mirroring JS object key order. -/
structure LockFile where
  version : Int
  skills : List (Str × SkillEntry)
  agents : List (Str × List Str)
deriving DecidableEq, Repr

/-- Association-list lookup (JS property read on a string-keyed object). -/
def assocLookup (k : Str) : List (Str × α) → Option α
  | [] => none
  | (k', v) :: rest => if k' = k then some v else assocLookup k rest

/-- JS property assignment: overwrite in place when the key exists, append
otherwise. -/
def assocUpsert (k : Str) (v : α) (l : List (Str × α)) : List (Str × α) :=
  if l.any (fun p => p.1 = k) then
    l.map (fun p => if p.1 = k then (k, v) else p)
  else l ++ [(k, v)]

/-- Embedding of `addSkillToLock`; `now` stands for
`new Date().toISOString()`. -/
def addSkillToLock (lock : LockFile) (skillName : Str)
    (source sourceType ref path : Str) (now : Str) (agentIds : List Str) : LockFile :=
  let skills := assocUpsert skillName
    { source := source, sourceType := sourceType, ref := ref, path := path,
      installedAt := now } lock.skills
  let agents := agentIds.foldl (fun ag agentId =>
    let ag :=
      match assocLookup agentId ag with
      | none => ag ++ [(agentId, [])]
      | some _ => ag
    match assocLookup agentId ag with
    | some skills =>
      if skillName ∈ skills then ag
      else assocUpsert agentId (skills ++ [skillName]) ag
    | none => ag) lock.agents
  { lock with skills := skills, agents := agents }

/-- Embedding of `removeSkillFromLock`: delete the skill entry, filter the
name out of every agent list, and delete agents whose list became empty. -/
def removeSkillFromLock (lock : LockFile) (skillName : Str) : LockFile :=
  { lock with
    skills := lock.skills.filter (fun p => p.1 ≠ skillName)
    agents := lock.agents.filterMap (fun p =>
      let filtered := p.2.filter (fun s => s ≠ skillName)
      if filtered = [] then none else some (p.1, filtered)) }

/-- Embedding of `getAllSkillNames`. -/
def getAllSkillNames (lock : LockFile) : List Str := lock.skills.map (·.1)

/-- Step 3 inner loop of `skill sync`: ensure every name of `allNames` is
listed, appending the missing ones in order. -/
def syncEnsureSkills (allNames : List Str) (skills : List Str) : List Str :=
  allNames.foldl (fun l n => if n ∈ l then l else l ++ [n]) skills

/-- Step 3 of `skill sync`: every currently-declared agent gets an entry; a
missing entry is created with all lock skills, an existing one is completed
with the missing names. -/
def syncStep3 (allNames : List Str) (agents : List (Str × List Str))
    (currentAgentIds : List Str) : List (Str × List Str) :=
  currentAgentIds.foldl (fun ag agentId =>
    match assocLookup agentId ag with
    | none => ag ++ [(agentId, allNames)]
    | some skills => assocUpsert agentId (syncEnsureSkills allNames skills) ag) agents

/-- Step 4 of `skill sync`: delete the entry of every agent id that was in
the lock before step 3 but is not currently declared. -/
def syncStep4 (lockAgentIds currentAgentIds : List Str)
    (agents : List (Str × List Str)) : List (Str × List Str) :=
  lockAgentIds.foldl (fun ag agentId =>
    if agentId ∈ currentAgentIds then ag
    else ag.filter (fun p => p.1 ≠ agentId)) agents

/-- The lock-record transformation performed by `skill sync`
(`skillSyncCommand`): the command mutates the lock only in step 3 (every
currently-declared agent gets an entry listing all lock skills) and step 4
(agents recorded in the lock but absent from the declared set are deleted;
the set of lock agent ids is captured before step 3).  When the lock holds
no skills the command returns before touching the lock. -/
def skillSyncLock (lock : LockFile) (currentAgentIds : List Str) : LockFile :=
  if getAllSkillNames lock = [] then lock
  else
    { lock with
      agents := syncStep4 (lock.agents.map (·.1)) currentAgentIds
        (syncStep3 (getAllSkillNames lock) lock.agents currentAgentIds) }

/-! ### Basic lemmas about the string primitives -/

theorem jsSplit_ne_nil (sep : Char) (s : Str) : jsSplit sep s ≠ [] := by
  cases s with
  | nil => simp [jsSplit]
  | cons x xs =>
    simp only [jsSplit]
    split
    · simp
    · split <;> simp

theorem jsSplit_no_sep (sep : Char) (s : Str) (h : sep ∉ s) : jsSplit sep s = [s] := by
  induction s with
  | nil => simp [jsSplit]
  | cons x xs ih =>
    have hx : x ≠ sep := fun hc => h (hc ▸ List.mem_cons_self x xs)
    have hxs : sep ∉ xs := fun hc => h (List.mem_cons_of_mem x hc)
    simp only [jsSplit, if_neg hx, ih hxs]

theorem jsSplit_append (sep : Char) (a b : Str) (h : sep ∉ a) :
    jsSplit sep (a ++ sep :: b) = a :: jsSplit sep b := by
  induction a with
  | nil => simp [jsSplit]
  | cons x xs ih =>
    have hx : x ≠ sep := fun hc => h (hc ▸ List.mem_cons_self x xs)
    have hxs : sep ∉ xs := fun hc => h (List.mem_cons_of_mem x hc)
    simp only [List.cons_append, jsSplit, if_neg hx, List.append_eq, ih hxs]

theorem jsJoin_jsSplit (sep : Char) (s : Str) : jsJoin sep (jsSplit sep s) = s := by
  induction s with
  | nil => simp [jsSplit, jsJoin]
  | cons x xs ih =>
    by_cases hx : x = sep
    · subst hx
      rcases hr : jsSplit x xs with _ | ⟨y, ys⟩
      · exact absurd hr (jsSplit_ne_nil x xs)
      · rw [hr] at ih
        simp only [jsSplit, if_pos rfl, hr, jsJoin]
        simpa using ih
    · rcases hr : jsSplit sep xs with _ | ⟨y, ys⟩
      · exact absurd hr (jsSplit_ne_nil sep xs)
      · rw [hr] at ih
        simp only [jsSplit, if_neg hx, hr]
        cases ys with
        | nil => simpa [jsJoin] using congrArg (x :: ·) ih
        | cons z zs =>
          simp only [jsJoin] at ih ⊢
          rw [← ih]
          simp

theorem jsIndexOf_not_mem (c : Char) (s : Str) (h : c ∉ s) : jsIndexOf c s = none := by
  induction s with
  | nil => rfl
  | cons x xs ih =>
    have hx : x ≠ c := fun hc => h (hc ▸ List.mem_cons_self x xs)
    have hxs : c ∉ xs := fun hc => h (List.mem_cons_of_mem x hc)
    simp [jsIndexOf, hx, ih hxs]

theorem jsIndexOf_append (c : Char) (a b : Str) (h : c ∉ a) :
    jsIndexOf c (a ++ c :: b) = some a.length := by
  induction a with
  | nil => simp [jsIndexOf]
  | cons x xs ih =>
    have hx : x ≠ c := fun hc => h (hc ▸ List.mem_cons_self x xs)
    have hxs : c ∉ xs := fun hc => h (List.mem_cons_of_mem x hc)
    simp [jsIndexOf, hx, ih hxs]

theorem isPrefixOf_append_self (l t : List Char) : l.isPrefixOf (l ++ t) = true := by
  induction l with
  | nil => simp [List.isPrefixOf]
  | cons x xs ih => simpa [List.isPrefixOf] using ih

theorem isPrefixOf_head_ne {a b : Char} (l₁ l₂ : List Char) (h : a ≠ b) :
    (a :: l₁).isPrefixOf (b :: l₂) = false := by
  simp [List.isPrefixOf, h]

theorem exists_append_of_isPrefixOf {l u : List Char} (h : l.isPrefixOf u = true) :
    ∃ t, u = l ++ t := by
  induction l generalizing u with
  | nil => exact ⟨u, rfl⟩
  | cons x xs ih =>
    cases u with
    | nil => simp [List.isPrefixOf] at h
    | cons y ys =>
      simp only [List.isPrefixOf, Bool.and_eq_true, beq_iff_eq] at h
      obtain ⟨rfl, h2⟩ := h
      obtain ⟨t, rfl⟩ := ih h2
      exact ⟨t, rfl⟩

theorem https_not_pre_github (X : Str) :
    httpsGithubPre.isPrefixOf (githubScheme ++ X) = false := by
  have h1 : httpsGithubPre = 'h' :: strOf "ttps://github.com/" := rfl
  have h2 : githubScheme ++ X = 'g' :: (strOf "ithub:" ++ X) := rfl
  rw [h1, h2]
  exact isPrefixOf_head_ne _ _ (by decide)

theorem http_not_pre_github (X : Str) :
    httpGithubPre.isPrefixOf (githubScheme ++ X) = false := by
  have h1 : httpGithubPre = 'h' :: strOf "ttp://github.com/" := rfl
  have h2 : githubScheme ++ X = 'g' :: (strOf "ithub:" ++ X) := rfl
  rw [h1, h2]
  exact isPrefixOf_head_ne _ _ (by decide)

theorem github_drop_append (X : Str) :
    (githubScheme ++ X).drop githubScheme.length = X :=
  List.drop_left githubScheme X

/-- `parseRemoteSource` on a `github:`-scheme uri, written in terms of the
hash split and slash split of the remainder. -/
theorem parse_github_scheme (X : Str) :
    parseRemoteSource (githubScheme ++ X) =
      (let bsplit : Str × Str :=
        match jsIndexOf '#' X with
        | some i => (X.take i, X.drop (i + 1))
        | none => (X, []);
      let parts := jsSplit '/' bsplit.1;
      if parts.length < 2 then .error .invalidGitHubSource
      else
        .ok { host := strOf "github"
              owner := parts.headD []
              repo := (parts.drop 1).headD []
              skillPath := if 2 < parts.length then some (jsJoin '/' (parts.drop 2)) else none
              ref := bsplit.2 }) := by
  simp only [parseRemoteSource, https_not_pre_github, http_not_pre_github,
    Bool.false_eq_true, or_self, if_false, isPrefixOf_append_self, if_true,
    github_drop_append]

theorem parts_of_body (owner repo : Str) (p : Option Str)
    (how : '/' ∉ owner) (hwr : '/' ∉ repo) :
    jsSplit '/' (owner ++ '/' :: (repo ++ optPathPart p)) =
      owner :: repo :: (match p with | some q => jsSplit '/' q | none => []) := by
  cases p with
  | none =>
    simp only [optPathPart, List.append_nil]
    rw [jsSplit_append _ _ _ how, jsSplit_no_sep _ _ hwr]
  | some q =>
    simp only [optPathPart]
    rw [jsSplit_append _ _ _ how, jsSplit_append _ _ _ hwr]

/-- `parseRemoteSource` on an assembled shorthand uri with well-formed
components recovers exactly those components (the ref may itself contain
`#` or be empty; the first `#` of the uri is the separator). -/
theorem parse_shorthand (owner repo : Str) (p r : Option Str)
    (how : '/' ∉ owner) (hho : '#' ∉ owner)
    (hwr : '/' ∉ repo) (hhr : '#' ∉ repo)
    (hp : ∀ q, p = some q → '#' ∉ q) :
    parseRemoteSource (shorthandUri owner repo p r) =
      .ok { host := strOf "github", owner := owner, repo := repo,
            skillPath := p, ref := r.getD [] } := by
  have hX : shorthandUri owner repo p r =
      githubScheme ++ ((owner ++ '/' :: (repo ++ optPathPart p)) ++ optRefPart r) := by
    simp [shorthandUri, List.append_assoc]
  have hbodyhash : '#' ∉ owner ++ '/' :: (repo ++ optPathPart p) := by
    simp only [List.mem_append, List.mem_cons, not_or]
    refine ⟨hho, by decide, hhr, ?_⟩
    cases p with
    | none => simp [optPathPart]
    | some q =>
      simp only [optPathPart, List.mem_cons, not_or]
      exact ⟨by decide, hp q rfl⟩
  rw [hX, parse_github_scheme]
  have hsplitbody := parts_of_body owner repo p how hwr
  cases r with
  | none =>
    simp only [optRefPart, List.append_nil]
    rw [jsIndexOf_not_mem _ _ hbodyhash]
    simp only [hsplitbody]
    cases p with
    | none => simp [jsJoin_jsSplit]
    | some q =>
      have hq := jsSplit_ne_nil '/' q
      have hqlen : 0 < (jsSplit '/' q).length := List.length_pos.mpr hq
      simp only [List.length_cons, List.headD_cons, List.drop_succ_cons, List.drop_zero]
      rw [if_neg (by omega), if_pos (by omega), jsJoin_jsSplit]
      rfl
  | some s =>
    simp only [optRefPart]
    rw [jsIndexOf_append _ _ _ hbodyhash]
    simp only []
    rw [List.take_left]
    have hdrop : ((owner ++ '/' :: (repo ++ optPathPart p)) ++ '#' :: s).drop
        ((owner ++ '/' :: (repo ++ optPathPart p)).length + 1) = s := by
      have : (owner ++ '/' :: (repo ++ optPathPart p)) ++ '#' :: s =
          ((owner ++ '/' :: (repo ++ optPathPart p)) ++ ['#']) ++ s := by
        simp
      rw [this]
      have hlen : ((owner ++ '/' :: (repo ++ optPathPart p)) ++ ['#']).length =
          (owner ++ '/' :: (repo ++ optPathPart p)).length + 1 := by
        simp only [List.length_append, List.length_cons, List.length_nil]
      rw [← hlen, List.drop_left]
    rw [hdrop]
    simp only [hsplitbody]
    cases p with
    | none => simp [jsJoin_jsSplit]
    | some q =>
      have hq := jsSplit_ne_nil '/' q
      have hqlen : 0 < (jsSplit '/' q).length := List.length_pos.mpr hq
      simp only [List.length_cons, List.headD_cons, List.drop_succ_cons, List.drop_zero]
      rw [if_neg (by omega), if_pos (by omega), jsJoin_jsSplit]
      rfl

/-- `formatSourceUri` reassembles the shorthand, dropping an empty path and
dropping the ref when it is empty or equals `"main"`. -/
theorem format_eq_shorthand (owner repo : Str) (p : Option Str) (ref : Str)
    (hp : ∀ q, p = some q → q ≠ []) :
    formatSourceUri ⟨strOf "github", owner, repo, p, ref⟩ =
      shorthandUri owner repo p
        (if ref ≠ [] ∧ ref ≠ strOf "main" then some ref else none) := by
  cases p with
  | none =>
    by_cases hc : ref ≠ [] ∧ ref ≠ strOf "main" <;>
      simp [formatSourceUri, shorthandUri, optPathPart, optRefPart, hc, List.append_assoc]
  | some q =>
    have hq : q ≠ [] := hp q rfl
    by_cases hc : ref ≠ [] ∧ ref ≠ strOf "main" <;>
      simp [formatSourceUri, shorthandUri, optPathPart, optRefPart, hc, hq, List.append_assoc]

/-- C1: for every valid shorthand reference `github:owner/repo[/path][#ref]`
(non-empty owner and repo without `/` or `#`, non-empty path without
`#`, non-empty ref without `#`), re-parsing the formatted parse result gives
back the parse result, except that a ref equal to `"main"` is omitted by
`formatSourceUri` and therefore comes back empty. -/
theorem parse_format_parse_roundtrip
    (owner repo : Str) (p r : Option Str)
    (hoNe : owner ≠ []) (hrepoNe : repo ≠ [])
    (how : '/' ∉ owner) (hho : '#' ∉ owner)
    (hwr : '/' ∉ repo) (hhr : '#' ∉ repo)
    (hp : ∀ q, p = some q → q ≠ [] ∧ '#' ∉ q)
    (hr : ∀ s, r = some s → s ≠ [] ∧ '#' ∉ s) :
    ∀ res, parseRemoteSource (shorthandUri owner repo p r) = .ok res →
      parseRemoteSource (formatSourceUri res) =
        .ok { res with ref := if res.ref = strOf "main" then [] else res.ref } := by
  intro res hres
  rw [parse_shorthand owner repo p r how hho hwr hhr (fun q hq => (hp q hq).2)] at hres
  injection hres with h
  subst h
  dsimp only
  rw [format_eq_shorthand owner repo p (r.getD []) (fun q hq => (hp q hq).1)]
  rw [parse_shorthand owner repo p _ how hho hwr hhr (fun q hq => (hp q hq).2)]
  cases r with
  | none => simp
  | some s =>
    have hs : s ≠ [] := (hr s rfl).1
    by_cases hmain : s = strOf "main"
    · subst hmain
      simp
    · simp [hs, hmain]

/-- C1 witness: a concrete valid shorthand uri with path and ref. -/
theorem parse_format_parse_roundtrip_witness :
    parseRemoteSource (formatSourceUri
        ⟨strOf "github", strOf "acme", strOf "pack",
         some (strOf "tools/writer"), strOf "dev"⟩) =
      .ok ⟨strOf "github", strOf "acme", strOf "pack",
           some (strOf "tools/writer"),
           if strOf "dev" = strOf "main" then [] else strOf "dev"⟩ :=
  parse_format_parse_roundtrip (strOf "acme") (strOf "pack")
    (some (strOf "tools/writer")) (some (strOf "dev"))
    (by decide) (by decide) (by decide) (by decide) (by decide) (by decide)
    (by intro q hq; cases hq; exact ⟨by decide, by decide⟩)
    (by intro s hs; cases hs; exact ⟨by decide, by decide⟩)
    ⟨strOf "github", strOf "acme", strOf "pack",
     some (strOf "tools/writer"), strOf "dev"⟩
    rfl

theorem drop_append_cons (a b : Str) (c : Char) :
    (a ++ c :: b).drop (a.length + 1) = b := by
  have h : a ++ c :: b = (a ++ [c]) ++ b := by simp
  rw [h]
  have hlen : (a ++ [c]).length = a.length + 1 := by
    simp only [List.length_append, List.length_cons, List.length_nil]
  rw [← hlen, List.drop_left]

/-- C3 counterexample: on `github:a/b#c#d` (two `#` in the input)
`parseRemoteSource` returns ref `"c#d"` — everything after the **first**
`#` — not `"d"` as the last-`#` rule would give. -/
theorem parse_last_hash_counterexample :
    parseRemoteSource (strOf "github:a/b#c#d") =
      .ok ⟨strOf "github", strOf "a", strOf "b", none, strOf "c#d"⟩ ∧
    strOf "c#d" ≠ strOf "d" := by
  exact ⟨rfl, by decide⟩

/-- C3 amended: `parseRemoteSource` separates the optional ref suffix by
splitting on the **first** `#`: the returned ref is the whole text after
that first `#` (even when it contains further `#`), and owner, repo and
skillPath are parsed from the text before it, exactly as they would be for
the uri without the suffix. -/
theorem parse_splits_first_hash (a b : Str)
    (ha : '#' ∉ a) (hlen : 2 ≤ (jsSplit '/' a).length) :
    ∃ r r₂, parseRemoteSource (githubScheme ++ (a ++ '#' :: b)) = .ok r ∧
      parseRemoteSource (githubScheme ++ a) = .ok r₂ ∧
      r.ref = b ∧ r.owner = r₂.owner ∧ r.repo = r₂.repo ∧
      r.skillPath = r₂.skillPath := by
  rw [parse_github_scheme, parse_github_scheme]
  rw [jsIndexOf_append _ _ _ ha, jsIndexOf_not_mem _ _ ha]
  simp only [List.take_left, drop_append_cons]
  have hc : ¬ (jsSplit '/' a).length < 2 := by omega
  rw [if_neg hc, if_neg hc]
  exact ⟨_, _, rfl, rfl, rfl, rfl, rfl, rfl⟩

/-- C3 amended witness: `github:o/r/p#x#y` keeps ref `"x#y"` and parses the
body parts from `o/r/p`. -/
theorem parse_splits_first_hash_witness :
    ∃ r r₂,
      parseRemoteSource (githubScheme ++ (strOf "o/r/p" ++ '#' :: strOf "x#y")) = .ok r ∧
      parseRemoteSource (githubScheme ++ strOf "o/r/p") = .ok r₂ ∧
      r.ref = strOf "x#y" ∧ r.owner = r₂.owner ∧ r.repo = r₂.repo ∧
      r.skillPath = r₂.skillPath :=
  parse_splits_first_hash (strOf "o/r/p") (strOf "x#y") (by decide) (by decide)

/-- C4 counterexample: `github:/r` parses successfully although its owner
segment is empty — `parseRemoteSource` enforces only the segment *count*,
not non-emptiness, so it accepts a uri outside the documented grammar and
returns an empty owner. -/
theorem parse_accepts_empty_owner_counterexample :
    parseRemoteSource (strOf "github:/r") =
      .ok ⟨strOf "github", [], strOf "r", none, []⟩ := rfl

/-- C4 amended: for a `github:`-scheme uri, `parseRemoteSource` fails (with
the invalid-source error) exactly when the body before the first `#` has
fewer than two `/`-separated segments; on success, owner and repo are the
first two segments and may be empty strings. -/
theorem parse_error_iff_segments (u : Str) (h : githubScheme.isPrefixOf u = true) :
    ((jsSplit '/' (hashBody u)).length < 2 →
        parseRemoteSource u = .error .invalidGitHubSource) ∧
    (2 ≤ (jsSplit '/' (hashBody u)).length →
        ∃ r, parseRemoteSource u = .ok r ∧
          r.owner = (jsSplit '/' (hashBody u)).headD [] ∧
          r.repo = ((jsSplit '/' (hashBody u)).drop 1).headD []) := by
  obtain ⟨t, rfl⟩ := exists_append_of_isPrefixOf h
  rw [parse_github_scheme]
  have hbody : hashBody (githubScheme ++ t) =
      (match jsIndexOf '#' t with
       | some i => t.take i
       | none => t) := by
    simp only [hashBody, github_drop_append]
  cases hidx : jsIndexOf '#' t with
  | none =>
    simp only [hbody, hidx]
    constructor
    · intro hlt
      rw [if_pos hlt]
    · intro hge
      rw [if_neg (show ¬ (jsSplit '/' t).length < 2 by omega)]
      exact ⟨_, rfl, rfl, rfl⟩
  | some i =>
    simp only [hbody, hidx]
    constructor
    · intro hlt
      rw [if_pos hlt]
    · intro hge
      rw [if_neg (show ¬ (jsSplit '/' (t.take i)).length < 2 by omega)]
      exact ⟨_, rfl, rfl, rfl⟩

/-- C4 amended witness at `github:acme/pack`. -/
theorem parse_error_iff_segments_witness :
    ((jsSplit '/' (hashBody (strOf "github:acme/pack"))).length < 2 →
        parseRemoteSource (strOf "github:acme/pack") = .error .invalidGitHubSource) ∧
    (2 ≤ (jsSplit '/' (hashBody (strOf "github:acme/pack"))).length →
        ∃ r, parseRemoteSource (strOf "github:acme/pack") = .ok r ∧
          r.owner = (jsSplit '/' (hashBody (strOf "github:acme/pack"))).headD [] ∧
          r.repo = ((jsSplit '/' (hashBody (strOf "github:acme/pack"))).drop 1).headD []) :=
  parse_error_iff_segments (strOf "github:acme/pack") (by decide)

/-! ### Lemmas about byte decoding, octal fields and subarray slicing -/

theorem dropWhile_replicate_append (p : Char → Bool) (k : Nat) (x : Char)
    (hx : p x = true) (t : Str) :
    (List.replicate k x ++ t).dropWhile p = t.dropWhile p := by
  induction k with
  | zero => rfl
  | succ m ih => simpa [List.replicate_succ, List.dropWhile, hx] using ih

theorem dropWhile_eq_self_of_all_false (p : Char → Bool) (s : Str)
    (h : ∀ c ∈ s, p c = false) : s.dropWhile p = s := by
  cases s with
  | nil => rfl
  | cons x xs => simp [List.dropWhile, h x (List.mem_cons_self x xs)]

theorem stripTrailingNuls_append_nuls (s : Str) (k : Nat)
    (h : ∀ c ∈ s, c.toNat ≠ 0) :
    stripTrailingNuls (s ++ List.replicate k (Char.ofNat 0)) = s := by
  unfold stripTrailingNuls
  rw [List.reverse_append, List.reverse_replicate]
  rw [dropWhile_replicate_append _ _ _ (by decide)]
  rw [dropWhile_eq_self_of_all_false _ _ (by
    intro c hc
    have : c ∈ s := by simpa using hc
    simpa using h c this)]
  exact List.reverse_reverse s

theorem jsTrim_eq_self (s : Str) (h : ∀ c ∈ s, isJsSpace c = false) : jsTrim s = s := by
  unfold jsTrim
  rw [dropWhile_eq_self_of_all_false _ _ h]
  rw [dropWhile_eq_self_of_all_false _ _ (by
    intro c hc
    exact h c (by simpa using hc))]
  exact List.reverse_reverse s

theorem bytesToStr_strBytes (s : Str) : bytesToStr (strBytes s) = s := by
  induction s with
  | nil => rfl
  | cons c cs ih =>
    simp only [strBytes, bytesToStr, List.map_cons, Char.ofNat_toNat] at ih ⊢
    exact congrArg (c :: ·) ih

theorem decode_padded_field (s : Str) (n : Nat) (h0 : ∀ c ∈ s, c.toNat ≠ 0) :
    stripTrailingNuls (bytesToStr (padTo n (strBytes s))) = s := by
  unfold padTo
  rw [show bytesToStr (strBytes s ++ List.replicate (n - (strBytes s).length) 0) =
      bytesToStr (strBytes s) ++ bytesToStr (List.replicate (n - (strBytes s).length) 0)
    from List.map_append _ _ _]
  rw [bytesToStr_strBytes]
  rw [show bytesToStr (List.replicate (n - (strBytes s).length) 0) =
      List.replicate (n - (strBytes s).length) (Char.ofNat 0) from List.map_replicate]
  exact stripTrailingNuls_append_nuls s _ h0

theorem padTo_length_of_le (n : Nat) (l : List Nat) (h : l.length ≤ n) :
    (padTo n l).length = n := by
  simp only [padTo, List.length_append, List.length_replicate]
  omega

theorem strBytes_length (s : Str) : (strBytes s).length = s.length := List.length_map s _

theorem mkTarHeader_length (name sf : Str) (t : Char)
    (hn : name.length ≤ 100) (hs : sf.length ≤ 12) :
    (mkTarHeader name sf t).length = 512 := by
  simp only [mkTarHeader, List.length_append, List.length_replicate, List.length_cons,
    List.length_nil]
  rw [padTo_length_of_le 100 _ (by rw [strBytes_length]; exact hn),
    padTo_length_of_le 12 _ (by rw [strBytes_length]; exact hs)]

theorem digitChar_toNat (n : Nat) (h : n < 8) : (Nat.digitChar n).toNat = 48 + n := by
  interval_cases n <;> rfl

theorem digitChar_oct_prop (m : Nat) (h : m < 8) :
    isOctDigit (Nat.digitChar m) = true ∧ (Nat.digitChar m).toNat ≠ 0 ∧
    isJsSpace (Nat.digitChar m) = false ∧ (Nat.digitChar m).isDigit = true := by
  interval_cases m <;> exact ⟨by decide, by decide, by decide, by decide⟩

theorem octEncode_ne_nil (n : Nat) : octEncode n ≠ [] := by
  rw [octEncode]
  split <;> simp

theorem octEncode_chars (n : Nat) : ∀ c ∈ octEncode n,
    isOctDigit c = true ∧ c.toNat ≠ 0 ∧ isJsSpace c = false ∧ c.isDigit = true := by
  induction n using Nat.strong_induction_on with
  | _ n ih =>
    rw [octEncode]
    split
    · next h =>
      intro c hc
      rcases List.mem_singleton.mp hc with rfl
      exact digitChar_oct_prop _ h
    · next h =>
      intro c hc
      rcases List.mem_append.mp hc with hc | hc
      · exact ih (n / 8) (Nat.div_lt_self (by omega) (by omega)) c hc
      · rcases List.mem_singleton.mp hc with rfl
        exact digitChar_oct_prop _ (Nat.mod_lt _ (by omega))

theorem octFold_encode (n : Nat) : ∀ acc : Nat,
    (octEncode n).foldl (fun acc c => acc * 8 + (c.toNat - '0'.toNat)) acc =
      acc * 8 ^ (octEncode n).length + n := by
  induction n using Nat.strong_induction_on with
  | _ n ih =>
    intro acc
    rw [octEncode]
    split
    · next h =>
      simp only [List.foldl_cons, List.foldl_nil, List.length_singleton, pow_one,
        digitChar_toNat n h]
      have : '0'.toNat = 48 := rfl
      omega
    · next h =>
      rw [List.foldl_append]
      rw [ih (n / 8) (Nat.div_lt_self (by omega) (by omega)) acc]
      simp only [List.foldl_cons, List.foldl_nil, List.length_append,
        List.length_singleton, digitChar_toNat (n % 8) (Nat.mod_lt _ (by omega))]
      have h0 : '0'.toNat = 48 := rfl
      rw [pow_succ, h0]
      have hm := Nat.div_add_mod n 8
      set K := 8 ^ (octEncode (n / 8)).length
      have : (acc * K + n / 8) * 8 + (48 + n % 8 - 48) = acc * (K * 8) + n := by
        have : 48 + n % 8 - 48 = n % 8 := by omega
        rw [this]
        ring_nf
        omega
      exact this

theorem octRunVal_encode (n : Nat) : octRunVal (octEncode n) = some n := by
  unfold octRunVal
  rw [List.takeWhile_eq_self_iff.mpr (fun c hc => (octEncode_chars n c hc).1)]
  rw [if_neg (octEncode_ne_nil n)]
  rw [octFold_encode n 0]
  simp

theorem jsParseIntOctal_digits (s : Str) (hne : s ≠ [])
    (hd : ∀ c ∈ s, isOctDigit c = true) :
    jsParseIntOctal s = (octRunVal s).map (fun n => (n : Int)) := by
  cases s with
  | nil => exact absurd rfl hne
  | cons c rest =>
    have hc := hd c (List.mem_cons_self _ _)
    have h1 : c ≠ '-' := by
      intro h
      rw [h] at hc
      exact absurd hc (by decide)
    have h2 : c ≠ '+' := by
      intro h
      rw [h] at hc
      exact absurd hc (by decide)
    unfold jsParseIntOctal
    split
    · next heq => exact absurd (List.head_eq_of_cons_eq heq.symm).symm h1
    · next heq => exact absurd (List.head_eq_of_cons_eq heq.symm).symm h2
    · rfl

theorem jsParseIntOctal_encode (n : Nat) :
    jsParseIntOctal (octEncode n) = some (n : Int) := by
  rw [jsParseIntOctal_digits _ (octEncode_ne_nil n)
    (fun c hc => (octEncode_chars n c hc).1)]
  rw [octRunVal_encode]
  rfl

theorem jsSubarray_int (l : List Nat) (a b : Int) (h0 : 0 ≤ a)
    (hbl : b ≤ l.length) (hab : a ≤ b) :
    jsSubarray l a b = (l.drop a.toNat).take (b.toNat - a.toNat) := by
  simp only [jsSubarray]
  rw [if_neg (by omega), if_neg (by omega)]
  have h1 : (min a (l.length : Int)).toNat = a.toNat := by omega
  have h2 : (min b (l.length : Int)).toNat = b.toNat := by omega
  rw [h1, h2]

theorem jsSubarray_clamp (l : List Nat) (a b : Int) (h0 : 0 ≤ a)
    (hal : a ≤ l.length) (hbl : (l.length : Int) ≤ b) :
    jsSubarray l a b = l.drop a.toNat := by
  simp only [jsSubarray]
  rw [if_neg (by omega), if_neg (by omega)]
  have h1 : (min a (l.length : Int)).toNat = a.toNat := by omega
  have h2 : (min b (l.length : Int)).toNat = l.length := by omega
  rw [h1, h2]
  have h3 : (l.drop a.toNat).length = l.length - a.toNat := List.length_drop _ _
  rw [← h3, List.take_length]

theorem pad512_natCast (n : Nat) :
    pad512 (n : Int) = (((n + 511) / 512 * 512 : Nat) : Int) := by
  unfold pad512
  rw [Int.fdiv_eq_ediv _ (by omega)]
  omega

theorem pad512_ge (n : Nat) : (n : Int) ≤ pad512 (n : Int) := by
  rw [pad512_natCast]
  have h : n ≤ (n + 511) / 512 * 512 := by omega
  exact_mod_cast h

/-- Data-block padding length used by `padBlock`. -/
theorem padBlock_length (l : List Nat) :
    (padBlock l).length = (l.length + 511) / 512 * 512 := by
  simp only [padBlock, List.length_append, List.length_replicate]
  rw [pad512_natCast]
  have h : l.length ≤ (l.length + 511) / 512 * 512 := by omega
  simp only [Int.toNat_natCast]
  omega

theorem mkTarHeader_not_all_zero (name sf : Str) (t : Char) (ht : t.toNat ≠ 0) :
    (mkTarHeader name sf t).all (fun b => b = 0) = false := by
  rw [Bool.eq_false_iff]
  intro hall
  rw [List.all_eq_true] at hall
  have hmem : t.toNat ∈ mkTarHeader name sf t := by
    simp [mkTarHeader]
  have := hall _ hmem
  simp only [decide_eq_true_eq] at this
  exact ht this

theorem mkTarHeader_slice_name (name sf : Str) (t : Char)
    (hn : name.length ≤ 100) (hs : sf.length ≤ 12) :
    jsSubarray (mkTarHeader name sf t) 0 100 = padTo 100 (strBytes name) := by
  have hP : (padTo 100 (strBytes name)).length = 100 :=
    padTo_length_of_le _ _ (by rw [strBytes_length]; exact hn)
  rw [jsSubarray_int _ 0 100 (by omega)
    (by rw [mkTarHeader_length name sf t hn hs]; omega) (by omega)]
  rw [show ((0 : Int)).toNat = 0 from rfl, show ((100 : Int)).toNat = 100 from rfl]
  have hassoc : mkTarHeader name sf t =
      padTo 100 (strBytes name) ++ (List.replicate 24 0 ++
        (padTo 12 (strBytes sf) ++ (List.replicate 20 0 ++
          ([t.toNat] ++ List.replicate 355 0)))) := by
    simp [mkTarHeader, List.append_assoc]
  rw [List.drop_zero, Nat.sub_zero, hassoc, List.take_left' hP]

theorem mkTarHeader_slice_size (name sf : Str) (t : Char)
    (hn : name.length ≤ 100) (hs : sf.length ≤ 12) :
    jsSubarray (mkTarHeader name sf t) 124 136 = padTo 12 (strBytes sf) := by
  have hP1 : (padTo 100 (strBytes name) ++ List.replicate 24 0).length = 124 := by
    rw [List.length_append,
      padTo_length_of_le _ _ (by rw [strBytes_length]; exact hn), List.length_replicate]
  have hP2 : (padTo 12 (strBytes sf)).length = 12 :=
    padTo_length_of_le _ _ (by rw [strBytes_length]; exact hs)
  rw [jsSubarray_int _ 124 136 (by omega)
    (by rw [mkTarHeader_length name sf t hn hs]; omega) (by omega)]
  rw [show ((124 : Int)).toNat = 124 from rfl, show ((136 : Int)).toNat = 136 from rfl]
  have hassoc : mkTarHeader name sf t =
      (padTo 100 (strBytes name) ++ List.replicate 24 0) ++
        (padTo 12 (strBytes sf) ++ (List.replicate 20 0 ++
          ([t.toNat] ++ List.replicate 355 0))) := by
    simp [mkTarHeader, List.append_assoc]
  rw [hassoc, List.drop_left' hP1]
  rw [show (136 : Nat) - 124 = 12 from rfl, List.take_left' hP2]

theorem mkTarHeader_getD_type (name sf : Str) (t : Char)
    (hn : name.length ≤ 100) (hs : sf.length ≤ 12) :
    (mkTarHeader name sf t).getD 156 0 = t.toNat := by
  have hA : (padTo 100 (strBytes name) ++ (List.replicate 24 0 ++
      (padTo 12 (strBytes sf) ++ List.replicate 20 0))).length = 156 := by
    simp only [List.length_append, List.length_replicate]
    rw [padTo_length_of_le _ _ (by rw [strBytes_length]; exact hn),
      padTo_length_of_le _ _ (by rw [strBytes_length]; exact hs)]
  have hassoc : mkTarHeader name sf t =
      (padTo 100 (strBytes name) ++ (List.replicate 24 0 ++
        (padTo 12 (strBytes sf) ++ List.replicate 20 0))) ++
        ([t.toNat] ++ List.replicate 355 0) := by
    simp [mkTarHeader, List.append_assoc]
  rw [hassoc, List.getD_append_right _ _ _ _ (by omega), hA]
  rfl

theorem mkTarHeader_slice_pre (name sf : Str) (t : Char)
    (hn : name.length ≤ 100) (hs : sf.length ≤ 12) :
    jsSubarray (mkTarHeader name sf t) 345 500 = List.replicate 155 0 := by
  have hB : (padTo 100 (strBytes name) ++ (List.replicate 24 0 ++
      (padTo 12 (strBytes sf) ++ (List.replicate 20 0 ++
        ([t.toNat] ++ List.replicate 188 0))))).length = 345 := by
    simp only [List.length_append, List.length_replicate, List.length_cons, List.length_nil]
    rw [padTo_length_of_le _ _ (by rw [strBytes_length]; exact hn),
      padTo_length_of_le _ _ (by rw [strBytes_length]; exact hs)]
  have hassoc : mkTarHeader name sf t =
      (padTo 100 (strBytes name) ++ (List.replicate 24 0 ++
        (padTo 12 (strBytes sf) ++ (List.replicate 20 0 ++
          ([t.toNat] ++ List.replicate 188 0))))) ++
        (List.replicate 155 0 ++ List.replicate 12 0) := by
    have h355 : List.replicate 355 (0 : Nat) =
        List.replicate 188 0 ++ (List.replicate 155 0 ++ List.replicate 12 0) := by
      rw [← List.replicate_add, ← List.replicate_add]
    simp [mkTarHeader, h355, List.append_assoc]
  rw [jsSubarray_int _ 345 500 (by omega)
    (by rw [mkTarHeader_length name sf t hn hs]; omega) (by omega)]
  rw [show ((345 : Int)).toNat = 345 from rfl, show ((500 : Int)).toNat = 500 from rfl]
  rw [hassoc, List.drop_left' hB]
  rw [show (500 : Nat) - 345 = 155 from rfl,
    List.take_left' (by rw [List.length_replicate])]

/-- One unfolding of the extraction loop at positive fuel. -/
theorem extractTarLoop_succ (destDir : Str) (tar : List Nat) (fuel : Nat) (offset : Int)
    (paxPath : Str) (acc : List FsAction) :
    extractTarLoop destDir tar (fuel + 1) offset paxPath acc =
      extractTarBody destDir tar offset paxPath acc (extractTarLoop destDir tar fuel) := rfl

/-- Processing one regular-file header block: the loop emits the mkdir and
the (possibly clamped) write, then continues past the padded data size. -/
theorem extractTarBody_file_step (destDir : Str) (tar : List Nat)
    (offset : Int) (acc : List FsAction)
    (k : Int → Str → List FsAction → Option (List FsAction))
    (hcond : offset + 512 ≤ (tar.length : Int))
    (hdr : List Nat) (hhdr : jsSubarray tar offset (offset + 512) = hdr)
    (hnz : hdr.all (fun b => b = 0) = false)
    (name : Str) (hname : stripTrailingNuls (bytesToStr (jsSubarray hdr 0 100)) = name)
    (sf : Str) (hsf : jsTrim (stripTrailingNuls (bytesToStr (jsSubarray hdr 124 136))) = sf)
    (hsfne : sf ≠ [])
    (size : Int) (hsize : jsParseIntOctal sf = some size)
    (htype : Char.ofNat (hdr.getD 156 0) = '0')
    (hpre : stripTrailingNuls (bytesToStr (jsSubarray hdr 345 500)) = [])
    (hslash : strEndsWithChar name '/' = false) :
    extractTarBody destDir tar offset [] acc k =
      k (offset + 512 + pad512 size) []
        (.writeFile (pathJoin destDir name)
            (jsSubarray tar (offset + 512) (offset + 512 + size)) ::
          .mkdir (pathDirname (pathJoin destDir name)) :: acc) := by
  rw [extractTarBody]
  rw [if_pos hcond]
  simp only []
  rw [hhdr, hnz]
  rw [if_neg (show ¬ (false = true) by simp)]
  rw [hname, hsf, htype, hpre]
  rw [if_neg hsfne, hsize]
  simp only []
  rw [if_neg (show ¬ (([] : Str) ≠ []) by simp)]
  rw [if_neg (show ¬ (([] : Str) ≠ []) by simp)]
  rw [if_neg (show ¬ ('0' = 'x' ∨ '0' = 'g') by decide)]
  rw [if_neg (show ¬ ('0' = '5' ∨ strEndsWithChar name '/' = true) from by
    simp [hslash])]
  rw [if_pos (Or.inl trivial : True ∨ '0' = Char.ofNat 0)]

theorem extractTar_truncated_file_clamped
    (name : Str) (s : Nat) (d : List Nat) (dest : Str)
    (hname_len : name.length ≤ 100)
    (hname_chars : ∀ c ∈ name, c.toNat ≠ 0)
    (hname_slash : strEndsWithChar name '/' = false)
    (htrunc : d.length < s)
    (hs12 : (octEncode s).length ≤ 12) :
    extractTar (mkTarHeader name (octEncode s) '0' ++ d) dest =
      some [.mkdir (pathDirname (pathJoin dest name)),
            .writeFile (pathJoin dest name) d] := by
  have hHlen : (mkTarHeader name (octEncode s) '0').length = 512 :=
    mkTarHeader_length _ _ _ hname_len hs12
  have htarlen : (mkTarHeader name (octEncode s) '0' ++ d).length = 512 + d.length := by
    rw [List.length_append, hHlen]
  have hheader : jsSubarray (mkTarHeader name (octEncode s) '0' ++ d) 0 ((0 : Int) + 512) =
      mkTarHeader name (octEncode s) '0' := by
    rw [show ((0 : Int) + 512) = 512 from by norm_num]
    rw [jsSubarray_int _ 0 512 (by omega) (by rw [htarlen]; push_cast; omega) (by omega)]
    rw [show ((0 : Int)).toNat = 0 from rfl, show ((512 : Int)).toNat = 512 from rfl]
    rw [List.drop_zero, Nat.sub_zero, List.take_left' hHlen]
  have hraw : stripTrailingNuls (bytesToStr
      (jsSubarray (mkTarHeader name (octEncode s) '0') 0 100)) = name := by
    rw [mkTarHeader_slice_name _ _ _ hname_len hs12]
    exact decode_padded_field name 100 hname_chars
  have hsizeStr : jsTrim (stripTrailingNuls (bytesToStr
      (jsSubarray (mkTarHeader name (octEncode s) '0') 124 136))) = octEncode s := by
    rw [mkTarHeader_slice_size _ _ _ hname_len hs12]
    rw [decode_padded_field _ 12 (fun c hc => (octEncode_chars s c hc).2.1)]
    exact jsTrim_eq_self _ (fun c hc => (octEncode_chars s c hc).2.2.1)
  have htype : Char.ofNat ((mkTarHeader name (octEncode s) '0').getD 156 0) = '0' := by
    rw [mkTarHeader_getD_type _ _ _ hname_len hs12, Char.ofNat_toNat]
  have hpre : stripTrailingNuls (bytesToStr
      (jsSubarray (mkTarHeader name (octEncode s) '0') 345 500)) = [] := by
    rw [mkTarHeader_slice_pre _ _ _ hname_len hs12]
    rw [show bytesToStr (List.replicate 155 0) = List.replicate 155 (Char.ofNat 0) from
      List.map_replicate]
    exact stripTrailingNuls_append_nuls [] 155 (by intro c hc; cases hc)
  have hdata : jsSubarray (mkTarHeader name (octEncode s) '0' ++ d)
      ((0 : Int) + 512) ((0 : Int) + 512 + (s : Int)) = d := by
    rw [show ((0 : Int) + 512) = 512 from by norm_num]
    rw [jsSubarray_clamp _ 512 (512 + (s : Int)) (by omega)
      (by rw [htarlen]; push_cast; omega) (by rw [htarlen]; push_cast; omega)]
    rw [show ((512 : Int)).toNat = 512 from rfl]
    rw [List.drop_left' hHlen]
  unfold extractTar
  rw [htarlen]
  rw [extractTarLoop_succ]
  rw [extractTarBody_file_step dest _ 0 []
    (extractTarLoop dest (mkTarHeader name (octEncode s) '0' ++ d) (512 + d.length))
    (by rw [htarlen]; push_cast; omega)
    (mkTarHeader name (octEncode s) '0') hheader
    (mkTarHeader_not_all_zero _ _ _ (by decide))
    name hraw
    (octEncode s) hsizeStr (octEncode_ne_nil s)
    (s : Int) (jsParseIntOctal_encode s)
    htype hpre hname_slash]
  rw [hdata]
  rw [show (512 : Nat) + d.length = (511 + d.length) + 1 from by omega]
  rw [extractTarLoop_succ]
  rw [extractTarBody]
  rw [if_neg (show ¬ ((0 : Int) + 512 + pad512 (s : Int) + 512 ≤
      ((mkTarHeader name (octEncode s) '0' ++ d).length : Int)) from by
    rw [htarlen, pad512_natCast]
    push_cast
    have hge : (s : Nat) ≤ (s + 511) / 512 * 512 := by omega
    omega)]
  rfl

/-- The loop returns the accumulated actions once fewer than 512 bytes
remain. -/
theorem extractTarBody_stop (destDir : Str) (tar : List Nat) (offset : Int)
    (paxPath : Str) (acc : List FsAction)
    (k : Int → Str → List FsAction → Option (List FsAction))
    (hcond : ¬ (offset + 512 ≤ (tar.length : Int))) :
    extractTarBody destDir tar offset paxPath acc k = some acc.reverse := by
  rw [extractTarBody, if_neg hcond]

theorem octEncode_lt8 (n : Nat) (h : n < 8) : octEncode n = [Nat.digitChar n] := by
  rw [octEncode]
  exact dif_pos h

theorem octEncode_ge8 (n : Nat) (h : ¬ n < 8) :
    octEncode n = octEncode (n / 8) ++ [Nat.digitChar (n % 8)] := by
  rw [octEncode]
  exact dif_neg h

theorem octEncode_eight : octEncode 8 = strOf "10" := by
  rw [octEncode_ge8 8 (by omega)]
  norm_num
  rw [octEncode_lt8 1 (by omega)]
  decide

/-- C2 amended witness: an 8-byte file entry truncated to 3 data bytes is
extracted without error, writing the 3 available bytes. -/
theorem extractTar_truncated_file_clamped_witness :
    extractTar (mkTarHeader (strOf "f") (octEncode 8) '0' ++ [1, 2, 3]) (strOf "out") =
      some [.mkdir (pathDirname (pathJoin (strOf "out") (strOf "f"))),
            .writeFile (pathJoin (strOf "out") (strOf "f")) [1, 2, 3]] :=
  extractTar_truncated_file_clamped (strOf "f") 8 [1, 2, 3] (strOf "out")
    (by decide) (by decide) (by decide) (by decide) (by rw [octEncode_eight]; decide)

/-- C2 counterexample: a tar buffer whose single file entry declares 8 bytes
(octal size field `10`) but is truncated after 3 data bytes.  `extractTar`
does not fail: it returns normally and writes a 3-byte file — shorter than
the declared size. -/
theorem extractTar_truncated_no_error_counterexample :
    extractTar (mkTarHeader (strOf "f") (strOf "10") '0' ++ [1, 2, 3]) (strOf "out") =
      some [.mkdir (strOf "out"), .writeFile (strOf "out/f") [1, 2, 3]] ∧
    jsParseIntOctal (strOf "10") = some 8 ∧ ([1, 2, 3] : List Nat).length < 8 := by
  refine ⟨rfl, rfl, by decide⟩

/-- C9: a 512-byte buffer holding one file header whose size field `-1000`
parses (base 8) to `-512` makes the extraction loop advance its offset by a
net zero each iteration: the loop never terminates, whatever the fuel, and
`extractTar` never returns. -/
theorem extractTar_negative_size_loops_forever :
    (∀ fuel acc, extractTarLoop (strOf "out")
        (mkTarHeader (strOf "f") (strOf "-1000") '0') fuel 0 [] acc = none) ∧
    extractTar (mkTarHeader (strOf "f") (strOf "-1000") '0') (strOf "out") = none := by
  have hloop : ∀ fuel acc, extractTarLoop (strOf "out")
      (mkTarHeader (strOf "f") (strOf "-1000") '0') fuel 0 [] acc = none := by
    intro fuel
    induction fuel with
    | zero => intro acc; rfl
    | succ n ih =>
      intro acc
      have hstep : extractTarLoop (strOf "out")
          (mkTarHeader (strOf "f") (strOf "-1000") '0') (n + 1) 0 [] acc =
          extractTarLoop (strOf "out") (mkTarHeader (strOf "f") (strOf "-1000") '0') n 0 []
            (.writeFile (strOf "out/f") [] :: .mkdir (strOf "out") :: acc) := rfl
      rw [hstep]
      exact ih _
  exact ⟨hloop, hloop 513 []⟩

theorem paxFindPath_line (v : Str) (hv : v ≠ []) (hnl : '\n' ∉ v) :
    paxFindPath (strOf "1 path=" ++ v) = some v := by
  have hshape : strOf "1 path=" ++ v = '1' :: ' ' :: (strOf "path=" ++ v) := rfl
  rw [hshape]
  unfold paxFindPath
  have hmatch : paxLineMatch ('1' :: ' ' :: (strOf "path=" ++ v)) = some v := by
    unfold paxLineMatch
    rw [show List.takeWhile Char.isDigit ('1' :: ' ' :: (strOf "path=" ++ v)) =
        ['1'] from by
      simp [List.takeWhile]]
    rw [if_neg (by simp)]
    simp only [List.length_singleton, List.drop_succ_cons, List.drop_zero]
    rw [show (strOf "path=").isPrefixOf (strOf "path=" ++ v) = true from
      isPrefixOf_append_self _ _]
    simp only [if_true]
    rw [show (strOf "path=" ++ v).drop 5 = v from List.drop_left' rfl]
    rw [List.takeWhile_eq_self_iff.mpr (by
      intro c hc
      simp only [decide_eq_true_eq]
      exact fun h => hnl (h ▸ hc))]
    rw [if_neg hv]
  rw [hmatch]

/-- Processing one pax extended header (type `x`): the pending pax path is
replaced by the `path=` value found in the data block (or cleared), no
filesystem action is emitted, and any previously pending pax path is
consumed without effect. -/
theorem extractTarBody_pax_step (destDir : Str) (tar : List Nat)
    (offset : Int) (paxPath : Str) (acc : List FsAction)
    (k : Int → Str → List FsAction → Option (List FsAction))
    (hcond : offset + 512 ≤ (tar.length : Int))
    (hdr : List Nat) (hhdr : jsSubarray tar offset (offset + 512) = hdr)
    (hnz : hdr.all (fun b => b = 0) = false)
    (sf : Str) (hsf : jsTrim (stripTrailingNuls (bytesToStr (jsSubarray hdr 124 136))) = sf)
    (hsfne : sf ≠ [])
    (size : Int) (hsize : jsParseIntOctal sf = some size)
    (htype : Char.ofNat (hdr.getD 156 0) = 'x') :
    extractTarBody destDir tar offset paxPath acc k =
      k (offset + 512 + pad512 size)
        ((paxFindPath (bytesToStr
          (jsSubarray tar (offset + 512) (offset + 512 + size)))).getD [])
        acc := by
  rw [extractTarBody]
  rw [if_pos hcond]
  simp only []
  rw [hhdr, hnz]
  rw [if_neg (show ¬ (false = true) by simp)]
  rw [hsf, htype]
  rw [if_neg hsfne, hsize]
  simp only []
  rw [if_pos (Or.inl trivial : True ∨ 'x' = 'g')]

/-- Processing a regular-file header while a pax path is pending: the pax
value replaces the entry name and is consumed. -/
theorem extractTarBody_file_step_pax (destDir : Str) (tar : List Nat)
    (offset : Int) (v : Str) (acc : List FsAction)
    (k : Int → Str → List FsAction → Option (List FsAction))
    (hcond : offset + 512 ≤ (tar.length : Int))
    (hdr : List Nat) (hhdr : jsSubarray tar offset (offset + 512) = hdr)
    (hnz : hdr.all (fun b => b = 0) = false)
    (sf : Str) (hsf : jsTrim (stripTrailingNuls (bytesToStr (jsSubarray hdr 124 136))) = sf)
    (hsfne : sf ≠ [])
    (size : Int) (hsize : jsParseIntOctal sf = some size)
    (htype : Char.ofNat (hdr.getD 156 0) = '0')
    (hv : v ≠ [])
    (hslash : strEndsWithChar v '/' = false) :
    extractTarBody destDir tar offset v acc k =
      k (offset + 512 + pad512 size) []
        (.writeFile (pathJoin destDir v)
            (jsSubarray tar (offset + 512) (offset + 512 + size)) ::
          .mkdir (pathDirname (pathJoin destDir v)) :: acc) := by
  rw [extractTarBody]
  rw [if_pos hcond]
  simp only []
  rw [hhdr, hnz]
  rw [if_neg (show ¬ (false = true) by simp)]
  rw [hsf, htype]
  rw [if_neg hsfne, hsize]
  simp only []
  rw [if_pos hv]
  rw [if_neg (show ¬ ('0' = 'x' ∨ '0' = 'g') by decide)]
  rw [if_neg (show ¬ ('0' = '5' ∨ strEndsWithChar v '/' = true) from by
    simp [hslash])]
  rw [if_pos (Or.inl trivial : True ∨ '0' = Char.ofNat 0)]

theorem extractTar_pax_renames_next_entry (v : Str) (dest : Str)
    (hv : v ≠ []) (hnl : '\n' ∉ v)
    (hslash : strEndsWithChar v '/' = false)
    (h12 : (octEncode (7 + v.length)).length ≤ 12) :
    extractTar (mkPaxEntry v ++ mkTarHeader (strOf "orig") (octEncode 0) '0') dest =
      some [.mkdir (pathDirname (pathJoin dest v)), .writeFile (pathJoin dest v) []] := by
  have h12' : (octEncode 0).length ≤ 12 := by
    rw [octEncode_lt8 0 (by omega)]
    decide
  have hH1len : (mkTarHeader (strOf "pax") (octEncode (7 + v.length)) 'x').length = 512 :=
    mkTarHeader_length _ _ _ (by decide) h12
  have hH2len : (mkTarHeader (strOf "orig") (octEncode 0) '0').length = 512 :=
    mkTarHeader_length _ _ _ (by decide) h12'
  have hdatalen : (strBytes (strOf "1 path=") ++ strBytes v).length = 7 + v.length := by
    rw [List.length_append, strBytes_length, strBytes_length]
    rfl
  have hPlen : (padBlock (strBytes (strOf "1 path=") ++ strBytes v)).length =
      (7 + v.length + 511) / 512 * 512 := by
    rw [padBlock_length, hdatalen]
  have hplge : 7 + v.length ≤ (7 + v.length + 511) / 512 * 512 := by omega
  have htarlen : (mkPaxEntry v ++ mkTarHeader (strOf "orig") (octEncode 0) '0').length =
      1024 + (7 + v.length + 511) / 512 * 512 := by
    rw [List.length_append, mkPaxEntry, List.length_append, hH1len, hPlen, hH2len]
    omega
  have hassoc : mkPaxEntry v ++ mkTarHeader (strOf "orig") (octEncode 0) '0' =
      mkTarHeader (strOf "pax") (octEncode (7 + v.length)) 'x' ++
        (padBlock (strBytes (strOf "1 path=") ++ strBytes v) ++
          mkTarHeader (strOf "orig") (octEncode 0) '0') := by
    rw [mkPaxEntry, List.append_assoc]
  -- first header block is the pax header
  have hheader1 : jsSubarray (mkPaxEntry v ++ mkTarHeader (strOf "orig") (octEncode 0) '0')
      0 ((0 : Int) + 512) = mkTarHeader (strOf "pax") (octEncode (7 + v.length)) 'x' := by
    rw [show ((0 : Int) + 512) = 512 from by norm_num]
    rw [jsSubarray_int _ 0 512 (by omega) (by rw [htarlen]; push_cast; omega) (by omega)]
    rw [show ((0 : Int)).toNat = 0 from rfl, show ((512 : Int)).toNat = 512 from rfl]
    rw [List.drop_zero, Nat.sub_zero, hassoc, List.take_left' hH1len]
  have hsf1 : jsTrim (stripTrailingNuls (bytesToStr
      (jsSubarray (mkTarHeader (strOf "pax") (octEncode (7 + v.length)) 'x') 124 136))) =
      octEncode (7 + v.length) := by
    rw [mkTarHeader_slice_size _ _ _ (by decide) h12]
    rw [decode_padded_field _ 12 (fun c hc => (octEncode_chars _ c hc).2.1)]
    exact jsTrim_eq_self _ (fun c hc => (octEncode_chars _ c hc).2.2.1)
  have htype1 : Char.ofNat
      ((mkTarHeader (strOf "pax") (octEncode (7 + v.length)) 'x').getD 156 0) = 'x' := by
    rw [mkTarHeader_getD_type _ _ _ (by decide) h12, Char.ofNat_toNat]
  -- the pax data block
  have hpaxdata : jsSubarray (mkPaxEntry v ++ mkTarHeader (strOf "orig") (octEncode 0) '0')
      ((0 : Int) + 512) ((0 : Int) + 512 + ((7 + v.length : Nat) : Int)) =
      strBytes (strOf "1 path=") ++ strBytes v := by
    rw [show ((0 : Int) + 512) = 512 from by norm_num]
    rw [jsSubarray_int _ 512 (512 + ((7 + v.length : Nat) : Int)) (by omega)
      (by rw [htarlen]; push_cast; omega) (by omega)]
    rw [show ((512 : Int)).toNat = 512 from rfl]
    rw [show ((512 : Int) + ((7 + v.length : Nat) : Int)).toNat = 512 + (7 + v.length)
      from by omega]
    rw [hassoc, List.drop_left' hH1len]
    rw [show padBlock (strBytes (strOf "1 path=") ++ strBytes v) ++
        mkTarHeader (strOf "orig") (octEncode 0) '0' =
        (strBytes (strOf "1 path=") ++ strBytes v) ++
          (List.replicate ((pad512 ((strBytes (strOf "1 path=") ++ strBytes v).length)).toNat -
              (strBytes (strOf "1 path=") ++ strBytes v).length) 0 ++
            mkTarHeader (strOf "orig") (octEncode 0) '0') from by
      rw [padBlock, List.append_assoc]]
    rw [show 512 + (7 + v.length) - 512 = 7 + v.length from by omega]
    rw [List.take_left' hdatalen]
  have hbytes : bytesToStr (strBytes (strOf "1 path=") ++ strBytes v) =
      strOf "1 path=" ++ v := by
    rw [show bytesToStr (strBytes (strOf "1 path=") ++ strBytes v) =
        bytesToStr (strBytes (strOf "1 path=")) ++ bytesToStr (strBytes v) from
      List.map_append _ _ _]
    rw [bytesToStr_strBytes, bytesToStr_strBytes]
  unfold extractTar
  rw [htarlen]
  rw [show (1024 + (7 + v.length + 511) / 512 * 512) + 1 =
      (1023 + (7 + v.length + 511) / 512 * 512) + 1 + 1 from by omega]
  rw [extractTarLoop_succ]
  rw [extractTarBody_pax_step dest _ 0 [] []
    (extractTarLoop dest (mkPaxEntry v ++ mkTarHeader (strOf "orig") (octEncode 0) '0')
      ((1023 + (7 + v.length + 511) / 512 * 512) + 1))
    (by rw [htarlen]; push_cast; omega)
    (mkTarHeader (strOf "pax") (octEncode (7 + v.length)) 'x') hheader1
    (mkTarHeader_not_all_zero _ _ _ (by decide))
    (octEncode (7 + v.length)) hsf1 (octEncode_ne_nil _)
    ((7 + v.length : Nat) : Int) (jsParseIntOctal_encode _)
    htype1]
  rw [hpaxdata, hbytes, paxFindPath_line v hv hnl]
  rw [show (some v).getD ([] : Str) = v from rfl]
  rw [show (0 : Int) + 512 + pad512 ((7 + v.length : Nat) : Int) =
      ((512 + (7 + v.length + 511) / 512 * 512 : Nat) : Int) from by
    rw [pad512_natCast]
    push_cast
    omega]
  rw [extractTarLoop_succ]
  -- second entry: the renamed file
  have hheader2 : jsSubarray (mkPaxEntry v ++ mkTarHeader (strOf "orig") (octEncode 0) '0')
      ((512 + (7 + v.length + 511) / 512 * 512 : Nat) : Int)
      (((512 + (7 + v.length + 511) / 512 * 512 : Nat) : Int) + 512) =
      mkTarHeader (strOf "orig") (octEncode 0) '0' := by
    rw [show (((512 + (7 + v.length + 511) / 512 * 512 : Nat) : Int) + 512) =
        ((1024 + (7 + v.length + 511) / 512 * 512 : Nat) : Int) from by push_cast; omega]
    rw [jsSubarray_int _ _ _ (by omega) (by rw [htarlen]) (by push_cast; omega)]
    rw [Int.toNat_natCast, Int.toNat_natCast]
    have hA : (mkPaxEntry v).length = 512 + (7 + v.length + 511) / 512 * 512 := by
      rw [mkPaxEntry, List.length_append, hH1len, hPlen]
    rw [List.drop_left' hA]
    rw [show 1024 + (7 + v.length + 511) / 512 * 512 -
        (512 + (7 + v.length + 511) / 512 * 512) = 512 from by omega]
    rw [← hH2len, List.take_length]
  have hsf2 : jsTrim (stripTrailingNuls (bytesToStr
      (jsSubarray (mkTarHeader (strOf "orig") (octEncode 0) '0') 124 136))) =
      octEncode 0 := by
    rw [mkTarHeader_slice_size _ _ _ (by decide) h12']
    rw [decode_padded_field _ 12 (fun c hc => (octEncode_chars _ c hc).2.1)]
    exact jsTrim_eq_self _ (fun c hc => (octEncode_chars _ c hc).2.2.1)
  have htype2 : Char.ofNat
      ((mkTarHeader (strOf "orig") (octEncode 0) '0').getD 156 0) = '0' := by
    rw [mkTarHeader_getD_type _ _ _ (by decide) h12', Char.ofNat_toNat]
  rw [extractTarBody_file_step_pax dest _ _ v []
    (extractTarLoop dest (mkPaxEntry v ++ mkTarHeader (strOf "orig") (octEncode 0) '0')
      (1023 + (7 + v.length + 511) / 512 * 512))
    (by rw [htarlen]; push_cast; omega)
    (mkTarHeader (strOf "orig") (octEncode 0) '0') hheader2
    (mkTarHeader_not_all_zero _ _ _ (by decide))
    (octEncode 0) hsf2 (octEncode_ne_nil _)
    ((0 : Nat) : Int) (jsParseIntOctal_encode 0)
    htype2 hv hslash]
  -- third probe: past the end of the buffer
  rw [show (1023 + (7 + v.length + 511) / 512 * 512) =
      (1022 + (7 + v.length + 511) / 512 * 512) + 1 from by omega]
  rw [extractTarLoop_succ]
  have hdata2 : jsSubarray (mkPaxEntry v ++ mkTarHeader (strOf "orig") (octEncode 0) '0')
      (((512 + (7 + v.length + 511) / 512 * 512 : Nat) : Int) + 512)
      (((512 + (7 + v.length + 511) / 512 * 512 : Nat) : Int) + 512 + ((0 : Nat) : Int)) =
      [] := by
    rw [jsSubarray_int _ _ _ (by omega) (by rw [htarlen]; push_cast; omega)
      (by push_cast; omega)]
    rw [show ((((512 + (7 + v.length + 511) / 512 * 512 : Nat) : Int) + 512 +
        ((0 : Nat) : Int)).toNat -
        (((512 + (7 + v.length + 511) / 512 * 512 : Nat) : Int) + 512).toNat) = 0
      from by omega]
    exact List.take_zero _
  rw [hdata2]
  rw [extractTarBody_stop _ _ _ _ _ _ (by
    rw [htarlen]
    push_cast
    rw [show pad512 (0 : Int) = 0 from rfl]
    omega)]
  rfl

/-- C5 amended witness: a pax header with `path=A` renames the regular-file
entry that immediately follows it. -/
theorem extractTar_pax_renames_next_entry_witness :
    extractTar (mkPaxEntry (strOf "A") ++
        mkTarHeader (strOf "orig") (octEncode 0) '0') (strOf "out") =
      some [.mkdir (pathDirname (pathJoin (strOf "out") (strOf "A"))),
            .writeFile (pathJoin (strOf "out") (strOf "A")) []] :=
  extractTar_pax_renames_next_entry (strOf "A") (strOf "out")
    (by decide) (by decide) (by decide)
    (by rw [show 7 + (strOf "A").length = 8 from rfl, octEncode_eight]; decide)


/-- Processing one global extended header (type `g`): same consumption of
the pending pax path as for `x`. -/
theorem extractTarBody_global_step (destDir : Str) (tar : List Nat)
    (offset : Int) (paxPath : Str) (acc : List FsAction)
    (k : Int → Str → List FsAction → Option (List FsAction))
    (hcond : offset + 512 ≤ (tar.length : Int))
    (hdr : List Nat) (hhdr : jsSubarray tar offset (offset + 512) = hdr)
    (hnz : hdr.all (fun b => b = 0) = false)
    (sf : Str) (hsf : jsTrim (stripTrailingNuls (bytesToStr (jsSubarray hdr 124 136))) = sf)
    (hsfne : sf ≠ [])
    (size : Int) (hsize : jsParseIntOctal sf = some size)
    (htype : Char.ofNat (hdr.getD 156 0) = 'g') :
    extractTarBody destDir tar offset paxPath acc k =
      k (offset + 512 + pad512 size)
        ((paxFindPath (bytesToStr
          (jsSubarray tar (offset + 512) (offset + 512 + size)))).getD [])
        acc := by
  rw [extractTarBody]
  rw [if_pos hcond]
  simp only []
  rw [hhdr, hnz]
  rw [if_neg (show ¬ (false = true) by simp)]
  rw [hsf, htype]
  rw [if_neg hsfne, hsize]
  simp only []
  rw [if_pos (Or.inr trivial : 'g' = 'x' ∨ True)]

/-- C5 counterexample: a pax (`x`) header carrying `path=A`, followed by a
global (`g`) header with no path record, followed by a regular file `orig`.
The stored path `A` is consumed by the intervening `g` header (which
computes and discards it as its own entry name), so the file is written as
`orig`, not `A` — the override does **not** survive to the next
non-extended entry. -/
theorem extractTar_pax_consumed_by_global_counterexample :
    extractTar (mkTarHeader (strOf "pax") (strOf "10") 'x' ++
        padBlock (strBytes (strOf "1 path=A")) ++
        mkTarHeader (strOf "g") (strOf "0") 'g' ++
        mkTarHeader (strOf "orig") (strOf "0") '0') (strOf "out") =
      some [.mkdir (strOf "out"), .writeFile (strOf "out/orig") []] ∧
    paxFindPath (strOf "1 path=A") = some (strOf "A") ∧
    strOf "out/orig" ≠ strOf "out/A" := by
  refine ⟨?_, rfl, by decide⟩
  have hH1 : (mkTarHeader (strOf "pax") (strOf "10") 'x').length = 512 :=
    mkTarHeader_length _ _ _ (by decide) (by decide)
  have hP : (padBlock (strBytes (strOf "1 path=A"))).length = 512 := by
    rw [padBlock_length]
    rfl
  have hH3 : (mkTarHeader (strOf "g") (strOf "0") 'g').length = 512 :=
    mkTarHeader_length _ _ _ (by decide) (by decide)
  have hH2 : (mkTarHeader (strOf "orig") (strOf "0") '0').length = 512 :=
    mkTarHeader_length _ _ _ (by decide) (by decide)
  have htarlen : (mkTarHeader (strOf "pax") (strOf "10") 'x' ++
      padBlock (strBytes (strOf "1 path=A")) ++
      mkTarHeader (strOf "g") (strOf "0") 'g' ++
      mkTarHeader (strOf "orig") (strOf "0") '0').length = 2048 := by
    simp only [List.length_append, hH1, hP, hH3, hH2]
  have hA1 : mkTarHeader (strOf "pax") (strOf "10") 'x' ++
      padBlock (strBytes (strOf "1 path=A")) ++
      mkTarHeader (strOf "g") (strOf "0") 'g' ++
      mkTarHeader (strOf "orig") (strOf "0") '0' =
      mkTarHeader (strOf "pax") (strOf "10") 'x' ++
        (padBlock (strBytes (strOf "1 path=A")) ++
          (mkTarHeader (strOf "g") (strOf "0") 'g' ++
            mkTarHeader (strOf "orig") (strOf "0") '0')) := by
    simp [List.append_assoc]
  have h12len : (mkTarHeader (strOf "pax") (strOf "10") 'x' ++
      padBlock (strBytes (strOf "1 path=A"))).length = 1024 := by
    rw [List.length_append, hH1, hP]
  have hA2 : mkTarHeader (strOf "pax") (strOf "10") 'x' ++
      padBlock (strBytes (strOf "1 path=A")) ++
      mkTarHeader (strOf "g") (strOf "0") 'g' ++
      mkTarHeader (strOf "orig") (strOf "0") '0' =
      (mkTarHeader (strOf "pax") (strOf "10") 'x' ++
        padBlock (strBytes (strOf "1 path=A"))) ++
        (mkTarHeader (strOf "g") (strOf "0") 'g' ++
          mkTarHeader (strOf "orig") (strOf "0") '0') := by
    simp [List.append_assoc]
  have h123len : (mkTarHeader (strOf "pax") (strOf "10") 'x' ++
      padBlock (strBytes (strOf "1 path=A")) ++
      mkTarHeader (strOf "g") (strOf "0") 'g').length = 1536 := by
    simp only [List.length_append, hH1, hP, hH3]
  -- first header block
  have hhdr1 : jsSubarray (mkTarHeader (strOf "pax") (strOf "10") 'x' ++
      padBlock (strBytes (strOf "1 path=A")) ++
      mkTarHeader (strOf "g") (strOf "0") 'g' ++
      mkTarHeader (strOf "orig") (strOf "0") '0') 0 ((0 : Int) + 512) =
      mkTarHeader (strOf "pax") (strOf "10") 'x' := by
    rw [show ((0 : Int) + 512) = 512 from by norm_num]
    rw [jsSubarray_int _ 0 512 (by omega) (by rw [htarlen]; norm_num) (by omega)]
    rw [show ((0 : Int)).toNat = 0 from rfl, show ((512 : Int)).toNat = 512 from rfl]
    rw [List.drop_zero, Nat.sub_zero, hA1, List.take_left' hH1]
  unfold extractTar
  rw [htarlen]
  rw [extractTarLoop_succ]
  rw [extractTarBody_pax_step (strOf "out") _ 0 [] [] _
    (by rw [htarlen]; norm_num)
    (mkTarHeader (strOf "pax") (strOf "10") 'x') hhdr1
    (mkTarHeader_not_all_zero _ _ _ (by decide))
    (strOf "10") rfl (by decide)
    (8 : Int) rfl rfl]
  -- pax data slice
  have hpaxslice : jsSubarray (mkTarHeader (strOf "pax") (strOf "10") 'x' ++
      padBlock (strBytes (strOf "1 path=A")) ++
      mkTarHeader (strOf "g") (strOf "0") 'g' ++
      mkTarHeader (strOf "orig") (strOf "0") '0')
      ((0 : Int) + 512) ((0 : Int) + 512 + 8) = strBytes (strOf "1 path=A") := by
    rw [show ((0 : Int) + 512 + 8) = 520 from by norm_num,
      show ((0 : Int) + 512) = 512 from by norm_num]
    rw [jsSubarray_int _ 512 520 (by omega) (by rw [htarlen]; norm_num) (by omega)]
    rw [show ((512 : Int)).toNat = 512 from rfl, show ((520 : Int)).toNat = 520 from rfl]
    rw [hA1, List.drop_left' hH1]
    rw [show padBlock (strBytes (strOf "1 path=A")) =
      strBytes (strOf "1 path=A") ++ List.replicate 504 0 from rfl]
    rw [List.append_assoc]
    rw [show (520 : Nat) - 512 = 8 from rfl]
    rw [List.take_left' (show (strBytes (strOf "1 path=A")).length = 8 from rfl)]
  rw [hpaxslice]
  rw [show (paxFindPath (bytesToStr (strBytes (strOf "1 path=A")))).getD [] =
    strOf "A" from rfl]
  rw [show (0 : Int) + 512 + pad512 8 = 1024 from by decide]
  rw [show (2048 : Nat) = 2047 + 1 from rfl]
  rw [extractTarLoop_succ]
  -- second entry: the global header
  have hhdr2 : jsSubarray (mkTarHeader (strOf "pax") (strOf "10") 'x' ++
      padBlock (strBytes (strOf "1 path=A")) ++
      mkTarHeader (strOf "g") (strOf "0") 'g' ++
      mkTarHeader (strOf "orig") (strOf "0") '0') 1024 ((1024 : Int) + 512) =
      mkTarHeader (strOf "g") (strOf "0") 'g' := by
    rw [show ((1024 : Int) + 512) = 1536 from by norm_num]
    rw [jsSubarray_int _ 1024 1536 (by omega) (by rw [htarlen]; norm_num) (by omega)]
    rw [show ((1024 : Int)).toNat = 1024 from rfl, show ((1536 : Int)).toNat = 1536 from rfl]
    rw [hA2, List.drop_left' h12len]
    rw [show (1536 : Nat) - 1024 = 512 from rfl]
    rw [List.take_left' hH3]
  rw [extractTarBody_global_step (strOf "out") _ 1024 (strOf "A") [] _
    (by rw [htarlen]; norm_num)
    (mkTarHeader (strOf "g") (strOf "0") 'g') hhdr2
    (mkTarHeader_not_all_zero _ _ _ (by decide))
    (strOf "0") rfl (by decide)
    (0 : Int) rfl rfl]
  have hempty : jsSubarray (mkTarHeader (strOf "pax") (strOf "10") 'x' ++
      padBlock (strBytes (strOf "1 path=A")) ++
      mkTarHeader (strOf "g") (strOf "0") 'g' ++
      mkTarHeader (strOf "orig") (strOf "0") '0')
      ((1024 : Int) + 512) ((1024 : Int) + 512 + 0) = [] := by
    rw [show ((1024 : Int) + 512 + 0) = 1536 from by norm_num,
      show ((1024 : Int) + 512) = 1536 from by norm_num]
    rw [jsSubarray_int _ 1536 1536 (by omega) (by rw [htarlen]; norm_num) (by omega)]
    rw [show ((1536 : Int)).toNat - ((1536 : Int)).toNat = 0 from rfl]
    exact List.take_zero _
  rw [hempty]
  rw [show (paxFindPath (bytesToStr ([] : List Nat))).getD [] = [] from rfl]
  rw [show (1024 : Int) + 512 + pad512 0 = 1536 from by decide]
  rw [show (2047 : Nat) = 2046 + 1 from rfl]
  rw [extractTarLoop_succ]
  -- third entry: the regular file, with the pax path already consumed
  have hhdr3 : jsSubarray (mkTarHeader (strOf "pax") (strOf "10") 'x' ++
      padBlock (strBytes (strOf "1 path=A")) ++
      mkTarHeader (strOf "g") (strOf "0") 'g' ++
      mkTarHeader (strOf "orig") (strOf "0") '0') 1536 ((1536 : Int) + 512) =
      mkTarHeader (strOf "orig") (strOf "0") '0' := by
    rw [show ((1536 : Int) + 512) = 2048 from by norm_num]
    rw [jsSubarray_int _ 1536 2048 (by omega) (by rw [htarlen]; norm_num) (by omega)]
    rw [show ((1536 : Int)).toNat = 1536 from rfl, show ((2048 : Int)).toNat = 2048 from rfl]
    rw [List.drop_left' h123len]
    rw [show (2048 : Nat) - 1536 = 512 from rfl]
    rw [← hH2, List.take_length]
  rw [extractTarBody_file_step (strOf "out") _ 1536 [] _
    (by rw [htarlen]; norm_num)
    (mkTarHeader (strOf "orig") (strOf "0") '0') hhdr3
    (mkTarHeader_not_all_zero _ _ _ (by decide))
    (strOf "orig") rfl
    (strOf "0") rfl (by decide)
    (0 : Int) rfl rfl rfl
    (by decide)]
  have hdata3 : jsSubarray (mkTarHeader (strOf "pax") (strOf "10") 'x' ++
      padBlock (strBytes (strOf "1 path=A")) ++
      mkTarHeader (strOf "g") (strOf "0") 'g' ++
      mkTarHeader (strOf "orig") (strOf "0") '0')
      ((1536 : Int) + 512) ((1536 : Int) + 512 + 0) = [] := by
    rw [show ((1536 : Int) + 512 + 0) = 2048 from by norm_num,
      show ((1536 : Int) + 512) = 2048 from by norm_num]
    rw [jsSubarray_int _ 2048 2048 (by omega) (by rw [htarlen]; norm_num) (by omega)]
    rw [show ((2048 : Int)).toNat - ((2048 : Int)).toNat = 0 from rfl]
    exact List.take_zero _
  rw [hdata3]
  rw [show (1536 : Int) + 512 + pad512 0 = 2048 from by decide]
  rw [show (2046 : Nat) = 2045 + 1 from rfl]
  rw [extractTarLoop_succ]
  rw [extractTarBody_stop _ _ _ _ _ _ (by
    rw [htarlen]
    norm_num)]
  rfl

/-! ### Skill detection, lock reconciliation and lock loading -/

/-- C6: in a tree with a SKILL.md at the repository root *and* a `skills/`
subdirectory holding skills, `detectSkills` returns exactly the single
whole-repository skill (empty relative path, the root as its directory) —
pattern 1 wins over patterns 2 and 3. -/
theorem detectSkills_root_wins (fs : FsTree) (repoDir : List Str)
    (hroot : fileExists fs (repoDir ++ [strOf "SKILL.md"]) = true)
    (hsub : fileExists fs (repoDir ++ [strOf "skills"]) = true)
    (hskills : scanForSkills fs (repoDir ++ [strOf "skills"]) (strOf "skills") ≠ []) :
    ∃ sk, detectSkills fs repoDir = .ok [sk] ∧ sk.relativePath = [] ∧
      sk.dirPath = repoDir := by
  unfold detectSkills
  rw [if_pos hroot]
  exact ⟨_, rfl, rfl, rfl⟩

/-- C6 witness: a concrete tree with both a root SKILL.md and a populated
skills directory. -/
theorem detectSkills_root_wins_witness :
    ∃ sk, detectSkills
      (FsTree.dir [(strOf "SKILL.md", .file (strOf "hi")),
        (strOf "skills", .dir [(strOf "a", .dir [(strOf "SKILL.md", .file [])])])])
      [] = .ok [sk] ∧ sk.relativePath = [] ∧ sk.dirPath = [] :=
  detectSkills_root_wins
    (FsTree.dir [(strOf "SKILL.md", .file (strOf "hi")),
      (strOf "skills", .dir [(strOf "a", .dir [(strOf "SKILL.md", .file [])])])])
    [] (by decide) (by decide) (by decide)

theorem assocLookup_filter_ne (k : Str) (l : List (Str × α)) :
    assocLookup k (l.filter (fun p => p.1 ≠ k)) = none := by
  induction l with
  | nil => rfl
  | cons q rest ih =>
    rw [List.filter_cons]
    by_cases h : q.1 = k
    · rw [if_neg (by simp [h])]
      exact ih
    · rw [if_pos (by simp [h])]
      rw [show assocLookup k (q :: rest.filter (fun p => p.1 ≠ k)) =
          (if q.1 = k then some q.2
           else assocLookup k (rest.filter (fun p => p.1 ≠ k))) from rfl]
      rw [if_neg h]
      exact ih

/-- C7: adding a skill to the lock and then removing the same name leaves a
record with no entry for the name in `skills`, with the name gone from
every agent list, and with no empty agent entry left behind. -/
theorem add_then_remove_clean (lock : LockFile) (skillName : Str)
    (source sourceType ref path now : Str) (agentIds : List Str) :
    assocLookup skillName (removeSkillFromLock
      (addSkillToLock lock skillName source sourceType ref path now agentIds)
      skillName).skills = none ∧
    ∀ p ∈ (removeSkillFromLock
      (addSkillToLock lock skillName source sourceType ref path now agentIds)
      skillName).agents, skillName ∉ p.2 ∧ p.2 ≠ [] := by
  constructor
  · exact assocLookup_filter_ne skillName _
  · intro p hp
    simp only [removeSkillFromLock] at hp
    rcases List.mem_filterMap.mp hp with ⟨q, _hq, hf⟩
    by_cases he : q.2.filter (fun s => s ≠ skillName) = []
    · rw [if_pos he] at hf
      cases hf
    · rw [if_neg he] at hf
      cases hf
      refine ⟨?_, he⟩
      intro hmem
      have := (List.mem_filter.mp hmem).2
      simp at this

theorem assocUpsert_keys (k : Str) (v : α) (l : List (Str × α)) (x : Str)
    (hx : x ∈ (assocUpsert k v l).map (·.1)) : x ∈ l.map (·.1) ∨ x = k := by
  unfold assocUpsert at hx
  by_cases h : l.any (fun p => p.1 = k)
  · rw [if_pos h] at hx
    rcases List.mem_map.mp hx with ⟨p, hp, hpx⟩
    rcases List.mem_map.mp hp with ⟨q, hq, hqp⟩
    by_cases hc : q.1 = k
    · rw [if_pos hc] at hqp
      right
      rw [← hpx, ← hqp]
    · rw [if_neg hc] at hqp
      left
      rw [← hpx, ← hqp]
      exact List.mem_map.mpr ⟨q, hq, rfl⟩
  · rw [if_neg h] at hx
    rw [List.map_append] at hx
    rcases List.mem_append.mp hx with hx | hx
    · exact Or.inl hx
    · right
      simpa using hx

theorem syncStep3_mem (allNames : List Str) :
    ∀ (cur : List Str) (ag : List (Str × List Str)),
      ∀ p ∈ syncStep3 allNames ag cur, p.1 ∈ ag.map (·.1) ∨ p.1 ∈ cur := by
  intro cur
  induction cur with
  | nil =>
    intro ag p hp
    exact Or.inl (List.mem_map.mpr ⟨p, hp, rfl⟩)
  | cons a rest ih =>
    intro ag p hp
    have hstep : syncStep3 allNames ag (a :: rest) = syncStep3 allNames
        (match assocLookup a ag with
         | none => ag ++ [(a, allNames)]
         | some skills => assocUpsert a (syncEnsureSkills allNames skills) ag) rest := rfl
    rw [hstep] at hp
    rcases ih _ p hp with hk | hk
    · cases hl : assocLookup a ag with
      | none =>
        rw [hl] at hk
        rw [List.map_append] at hk
        rcases List.mem_append.mp hk with hk | hk
        · exact Or.inl hk
        · right
          simp only [List.map_cons, List.map_nil, List.mem_singleton] at hk
          rw [hk]
          exact List.mem_cons_self a rest
      | some sk =>
        rw [hl] at hk
        rcases assocUpsert_keys _ _ _ _ hk with hk | hk
        · exact Or.inl hk
        · right
          rw [hk]
          exact List.mem_cons_self a rest
    · exact Or.inr (List.mem_cons_of_mem a hk)

theorem syncStep4_mem (cur : List Str) :
    ∀ (ids : List Str) (init : List (Str × List Str)),
      ∀ p ∈ syncStep4 ids cur init, p ∈ init ∧ (p.1 ∈ ids → p.1 ∈ cur) := by
  intro ids
  induction ids with
  | nil =>
    intro init p hp
    exact ⟨hp, fun h => absurd h (List.not_mem_nil _)⟩
  | cons a rest ih =>
    intro init p hp
    have hstep : syncStep4 (a :: rest) cur init = syncStep4 rest cur
        (if a ∈ cur then init else init.filter (fun q => q.1 ≠ a)) := rfl
    rw [hstep] at hp
    obtain ⟨hin, himp⟩ := ih _ p hp
    by_cases ha : a ∈ cur
    · rw [if_pos ha] at hin
      refine ⟨hin, ?_⟩
      intro hm
      rcases List.mem_cons.mp hm with hm | hm
      · rw [hm]; exact ha
      · exact himp hm
    · rw [if_neg ha] at hin
      have hfil := List.mem_filter.mp hin
      refine ⟨hfil.1, ?_⟩
      intro hm
      rcases List.mem_cons.mp hm with hm | hm
      · exfalso
        have := hfil.2
        simp only [decide_eq_true_eq] at this
        exact this hm
      · exact himp hm

/-- C8: when the lock holds at least one skill, the sync transformation
leaves the `skills` map exactly as it was — no entry is removed or changed —
and every agent entry in the result belongs to a currently-declared agent
(entries of agents absent from the declared set are deleted; the others are
only added or repaired). -/
theorem sync_preserves_skills (lock : LockFile) (currentAgentIds : List Str)
    (h : getAllSkillNames lock ≠ []) :
    (skillSyncLock lock currentAgentIds).skills = lock.skills ∧
    ∀ p ∈ (skillSyncLock lock currentAgentIds).agents, p.1 ∈ currentAgentIds := by
  unfold skillSyncLock
  rw [if_neg h]
  constructor
  · rfl
  · intro p hp
    obtain ⟨h4in, h4imp⟩ := syncStep4_mem currentAgentIds (lock.agents.map (·.1)) _ p hp
    rcases syncStep3_mem (getAllSkillNames lock) currentAgentIds lock.agents p h4in with
      hk | hk
    · exact h4imp hk
    · exact hk

/-- C8 witness: a lock with one skill, one stale agent and one declared
agent. -/
theorem sync_preserves_skills_witness :
    (skillSyncLock
      ⟨1, [(strOf "writer", ⟨strOf "github:acme/pack", strOf "github",
        strOf "dev", strOf "writer", strOf "t"⟩)],
       [(strOf "old", [strOf "writer"])]⟩
      [strOf "claude"]).skills =
      [(strOf "writer", ⟨strOf "github:acme/pack", strOf "github",
        strOf "dev", strOf "writer", strOf "t"⟩)] ∧
    ∀ p ∈ (skillSyncLock
      ⟨1, [(strOf "writer", ⟨strOf "github:acme/pack", strOf "github",
        strOf "dev", strOf "writer", strOf "t"⟩)],
       [(strOf "old", [strOf "writer"])]⟩
      [strOf "claude"]).agents, p.1 ∈ [strOf "claude"] :=
  sync_preserves_skills
    ⟨1, [(strOf "writer", ⟨strOf "github:acme/pack", strOf "github",
      strOf "dev", strOf "writer", strOf "t"⟩)],
     [(strOf "old", [strOf "writer"])]⟩
    [strOf "claude"] (by decide)

/-- C10: `loadLock` returns the fresh empty lock — version 1, empty skills
object, empty agents object — whenever reading or JSON-parsing the lock file
failed (`none`) or the parsed value has no truthy `version` field; no read
or parse error reaches the caller (the model is total over all outcomes). -/
theorem loadLock_empty_on_invalid (parsed : Option Json)
    (h : parsed = none ∨ ∀ j, parsed = some j →
      optTruthy (j.getField (strOf "version")) = false) :
    loadLock parsed = createEmptyLock ∧
      createEmptyLock = ⟨Json.num 1, Json.obj [], Json.obj []⟩ := by
  refine ⟨?_, rfl⟩
  cases parsed with
  | none => rfl
  | some j =>
    rcases h with h | h
    · exact Option.noConfusion h
    · have hv := h j rfl
      have hc : (j.truthy && j.isObjectType &&
          optTruthy (j.getField (strOf "version"))) = false := by
        rw [hv, Bool.and_false]
      simp [loadLock, hc]

/-- C10 witness: a parsed object with no version field yields the empty
lock. -/
theorem loadLock_empty_on_invalid_witness :
    loadLock (some (Json.obj [])) = createEmptyLock ∧
      createEmptyLock = ⟨Json.num 1, Json.obj [], Json.obj []⟩ :=
  loadLock_empty_on_invalid (some (Json.obj []))
    (Or.inr (fun j hj => by cases hj; rfl))
